import Mathlib

/-!
Shallow embedding of the OptoTransportAnalysis repository
(`src/OptoTransportAnalysis/{data,Optics,transportData}.py`,
`src/src/OptoTransportAnalysis/{Transport,Optics}.py`) and proofs about it.

Modelling conventions, used throughout:

* Machine floats are embedded as exact rationals `ℚ` (the claims under study
  are algebraic identities, not rounding statements); the FFT claims use `ℝ`
  and `ℂ` where complex roots of unity are required.
* A pandas "missing value" (NaN) is `Option.none`; a cell is `Option ℚ`.
* A pandas `DataFrame` owned by an `OpticsData` object is positionally
  indexed (`OFrame`): a row count plus named columns.  A `DataFrame` held in
  a `TransportData` object's data dictionary carries a label index
  (`PFrame`), because `append_symm_antisymm_rho` relies on pandas label
  alignment.
* Python `dict` / `OrderedDict` objects are association lists; `d[k] = v`
  replaces in place when the key exists and appends otherwise (`aset`).
* Python exceptions are the `Except PyErr` monad.
* Binary arithmetic on two pandas Series with the *same* label sequence is
  positional (`List.zipWith`); when the label sequences differ pandas aligns
  by label, which is modelled explicitly where it matters
  (`serGet` / `serAlignAdd`).  A label absent from the other operand yields
  NaN, duplicate labels are outside the scope of the claims.
-/

namespace OTA

/-- Python `str.startswith`: the first string starts with the second.
(`String.startsWith` from core is semantically identical but does not reduce
in the kernel, so the evaluation theorems use this list-based version.) -/
def strStarts (s p : String) : Bool := p.toList.isPrefixOf s.toList

/-- A Python exception, named after the exception classes the source can
raise. -/
inductive PyErr where
  | keyError : PyErr
  | indexError : PyErr
  | valueError : PyErr
  | nameError : PyErr
  | operationalError : PyErr
  | assertionError : String → PyErr
deriving DecidableEq, Repr

/-- A pandas cell: `none` is NaN / missing. -/
abbrev Cell : Type := Option ℚ

/-- Association-list lookup (Python `d[k]` read, `None` for a missing key). -/
def aget {κ β : Type} [DecidableEq κ] (l : List (κ × β)) (k : κ) : Option β :=
  (l.find? (fun p => decide (p.1 = k))).map (·.2)

/-- Association-list update with Python `dict` semantics: `d[k] = v` keeps
the position of an existing key and appends a new key at the end. -/
def aset {κ β : Type} [DecidableEq κ] : List (κ × β) → κ → β → List (κ × β)
  | [], k, v => [(k, v)]
  | (k0, v0) :: t, k, v =>
      if k0 = k then (k, v) :: t else (k0, v0) :: aset t k v

/-- Turn an `Option` into `Except`, raising the given Python exception on
`none`. -/
def okOr {β : Type} (o : Option β) (e : PyErr) : Except PyErr β :=
  match o with
  | some v => .ok v
  | none => .error e

/-- Pointwise binary operation on cells; NaN propagates (pandas/NumPy float
semantics). -/
def cellBin (f : ℚ → ℚ → ℚ) : Cell → Cell → Cell
  | some x, some y => some (f x y)
  | _, _ => none

/-- Unary operation on a cell; NaN propagates. -/
def cellMap (f : ℚ → ℚ) : Cell → Cell
  | some x => some (f x)
  | none => none

/-- A JSON-loaded Python `dict` key.  `json.load` only ever produces string
keys (`.inl`); a float used as a lookup key (`.inr`) can therefore never hit
a metadata entry. -/
abbrev PyKey : Type := String ⊕ ℚ

/-! ## Optics data model (`src/src/OptoTransportAnalysis/Optics.py`)

An `OpticsData` object holds a single positionally-indexed `DataFrame`
(`self.data`) plus a metadata `dict`. -/

/-- A positionally indexed `DataFrame`: a row count and named columns (cells
over an arbitrary scalar type, `ℚ` for the algebraic claims and `ℝ` for the
FFT claims). -/
structure OFrame (α : Type) where
  nrows : ℕ
  cols : List (String × List (Option α))
deriving Repr

/-- Column read `df[name]` on an `OFrame` (`none` = KeyError). -/
def oGetCol {α : Type} (d : OFrame α) (k : String) : Option (List (Option α)) :=
  aget d.cols k

/-- Column write `df[name] = array` on an `OFrame`, without a length check
(used where the assigned array has the frame's row count by construction). -/
def oSetCol {α : Type} (d : OFrame α) (k : String) (v : List (Option α)) :
    OFrame α :=
  { d with cols := aset d.cols k v }

/-- An `OpticsData` object: its single `DataFrame` and its metadata dict. -/
structure OptRecord where
  data : OFrame ℚ
  metadata : List (PyKey × ℚ)
deriving Repr

/-- `OpticsData.add_average_signal` (src/src/OptoTransportAnalysis/Optics.py,
lines 64-72).  The `num_frames` parameter is accepted but immediately
shadowed by `num_frames = len(int_col_names)` in the source, so it never
influences the result; the embedding keeps the parameter and, like the
source, ignores it.  `sum(axis=1)` skips NaN (a missing cell contributes 0),
and the assigned array has the frame's row count by construction. -/
def add_average_signal (r : OptRecord) (num_frames : Option ℚ) : OptRecord :=
  let int_col_names := r.data.cols.filter (fun c => strStarts c.1 "Intensity")
  let n : ℕ := int_col_names.length
  let avg : List Cell :=
    (List.range r.data.nrows).map (fun i =>
      some (((int_col_names.map (fun c => ((c.2.getD i none).getD 0))).sum) / (n : ℚ)))
  { r with data := oSetCol r.data "Average Intensity" avg }

/-- `OpticsData.add_eV_from_wavelength`
(src/src/OptoTransportAnalysis/Optics.py, lines 74-80):

    data['Energy'] = data['Wavelength'].multiply(1e-9).pow(-1)
                       .multiply(Planck).multiply(speed_of_light)
                       .divide(electron_volt)

The scipy constants are the exact SI values `Planck = 6.62607015e-34`,
`speed_of_light = 299792458`, `electron_volt = 1.602176634e-19`, all exact
in `ℚ`.  Pointwise Series arithmetic; NaN propagates through `cellMap`. -/
def add_eV_from_wavelength (r : OptRecord) : Except PyErr OptRecord := do
  let wl ← okOr (oGetCol r.data "Wavelength") .keyError
  let energy := wl.map (cellMap (fun x =>
    (x * 1e-9)⁻¹ * 6.62607015e-34 * 299792458 / 1.602176634e-19))
  return { r with data := oSetCol r.data "Energy" energy }

/-- `numpy.gradient` of a 1-d array: one-sided differences at the two ends,
central differences in the interior; arrays shorter than 2 raise
`ValueError`.  The claims' columns are NaN-free, so this operates on the
plain values. -/
def npGradient (x : List ℚ) : Except PyErr (List ℚ) :=
  if x.length < 2 then .error .valueError
  else .ok ((List.range x.length).map (fun i : ℕ =>
    if i = 0 then x.getD 1 0 - x.getD 0 0
    else if i = x.length - 1 then x.getD (x.length - 1) 0 - x.getD (x.length - 2) 0
    else (x.getD (i + 1) 0 - x.getD (i - 1) 0) / 2))

/-- `OpticsData.compute_gradient`
(src/src/OptoTransportAnalysis/Optics.py, lines 150-156): asserts the key
exists and assigns `numpy.gradient` of the column to `"Grad <key_name>"`
(the gradient array has the column's length, so the assignment fits the
frame).  As in `apply_lpf`, a missing cell is read as 0, a case outside the
claims' NaN-free scope. -/
def compute_gradient (r : OptRecord) (key_name : String) : Except PyErr OptRecord := do
  let col ← okOr (oGetCol r.data key_name) (.assertionError "Selected key not valid")
  let g ← npGradient (col.map (fun c => c.getD 0))
  return { r with data := oSetCol r.data ("Grad " ++ key_name) (g.map some) }

/-- `numpy.mean` of a cell list: NaN if any value is NaN or the list is
empty, the arithmetic mean otherwise. -/
def npMean (cells : List Cell) : Cell :=
  if cells.all (fun c => c.isSome) && !cells.isEmpty then
    some ((cells.filterMap id).sum / (cells.length : ℚ))
  else none

/-- `OpticsData.compute_dR`
(src/src/OptoTransportAnalysis/Optics.py, lines 158-167):

    spec = data[key].divide(data[key] + background.data['Intensity'])
    data['dR/R <key>'] = spec - mean(spec)   (or spec, without the mean)

Both optics frames carry the default positional `RangeIndex`, so the
addition of the two Series aligns positionally: a position missing from the
shorter operand yields NaN, and assignment back clips the result to the
frame's rows. -/
def compute_dR (r : OptRecord) (key_name : String) (background : OptRecord)
    (subtract_mean : Bool) : Except PyErr OptRecord := do
  let col ← okOr (oGetCol r.data key_name) .keyError
  let bg ← okOr (oGetCol background.data "Intensity") .keyError
  let spec := (List.range r.data.nrows).map (fun i =>
    cellBin (fun a b => a / (a + b)) (col.getD i none) (bg.getD i none))
  let res := if subtract_mean then spec.map (fun c => cellBin (· - ·) c (npMean spec))
    else spec
  return { r with data := oSetCol r.data ("dR/R " ++ key_name) res }

/-! ## Transport data model (`src/src/OptoTransportAnalysis/Transport.py`)

A `TransportData` object holds an ordered dict of label-indexed `DataFrame`s
plus a metadata dict. -/

/-- A label-indexed `DataFrame`: an index of sweep-parameter labels and named
columns.  Well-formed frames have every column as long as the index. -/
structure PFrame where
  index : List ℚ
  cols : List (String × List Cell)
deriving Repr

/-- A `TransportData` object: `self.data` (ordered dict of frames) and
`self.metadata`. -/
structure TransRecord where
  data : List (String × PFrame)
  metadata : List (PyKey × ℚ)
deriving Repr

/-- A pandas Series extracted from a `PFrame`: index labels zipped with
cells. -/
def pSeries (f : PFrame) (k : String) : Option (List (ℚ × Cell)) :=
  (aget f.cols k).map (fun v => f.index.zip v)

/-- Label lookup in a Series (first matching label). -/
def serGet (t : List (ℚ × Cell)) (l : ℚ) : Option Cell :=
  (t.find? (fun q => decide (q.1 = l))).map (·.2)

/-- Pandas `s + t` for series with equal label sets in possibly different
order: the result is aligned by label; a label of `s` missing from `t`
yields NaN.  The result is kept in `s`'s label order (writing it back into a
frame indexed like `s` re-aligns it positionally anyway). -/
def serAlignAdd (s t : List (ℚ × Cell)) : List (ℚ × Cell) :=
  s.map (fun p => (p.1, match serGet t p.1 with
    | some c => cellBin (· + ·) p.2 c
    | none => none))

/-- Pandas `s - t` with label alignment, as in `serAlignAdd`. -/
def serAlignSub (s t : List (ℚ × Cell)) : List (ℚ × Cell) :=
  s.map (fun p => (p.1, match serGet t p.1 with
    | some c => cellBin (· - ·) p.2 c
    | none => none))

/-- `TransportData.append_symm_antisymm_rho`
(src/src/OptoTransportAnalysis/Transport.py, lines 252-253):

    data[exp][R + "_symm"]     = (data[exp][R] + data[exp][R].iloc[::-1]) / 2
    data[exp][R + "_antisymm"] = (data[exp][R] - data[exp][R].iloc[::-1]) / 2

`.iloc[::-1]` reverses the row order but keeps each row's label, and the
subsequent `+`/`-` align by label, not by position. -/
def append_symm_antisymm_rho (r : TransRecord) (exp_name R_sig : String) :
    Except PyErr TransRecord := do
  let f ← okOr (aget r.data exp_name) .keyError
  let col ← okOr (aget f.cols R_sig) .keyError
  let s := f.index.zip col
  let rev := s.reverse
  let symm := (serAlignAdd s rev).map (fun p => (p.1, cellMap (· / 2) p.2))
  let asym := (serAlignSub s rev).map (fun p => (p.1, cellMap (· / 2) p.2))
  let f1 : PFrame := { f with cols := aset f.cols (R_sig ++ "_symm") (symm.map (·.2)) }
  let f2 : PFrame := { f1 with cols := aset f1.cols (R_sig ++ "_antisymm") (asym.map (·.2)) }
  return { r with data := aset r.data exp_name f2 }

/-- Running pandas cumulative extremum (`cummin` for `f = min`, `cummax` for
`f = max`) over cells: NaN cells produce NaN and do not update the running
extremum, matching pandas `skipna` behaviour. -/
def cumRun (f : ℚ → ℚ → ℚ) : Option ℚ → List Cell → List Cell
  | _, [] => []
  | m, none :: xs => none :: cumRun f m xs
  | m, some v :: xs =>
      let m1 : ℚ := match m with | none => v | some m0 => f m0 v
      some m1 :: cumRun f (some m1) xs

/-- Pandas `Series.shift()`: every value moves one row down, NaN enters at
the front (the last value falls off). -/
def shiftP (l : List Cell) : List Cell := none :: l.dropLast

/-- Pandas elementwise `a < b` on float series: any comparison with NaN is
`False`. -/
def ltMask (a b : List Cell) : List Bool :=
  List.zipWith (fun x y => match x, y with
    | some u, some w => decide (u < w)
    | _, _ => false) a b

/-- Pandas elementwise `a > b` on float series: any comparison with NaN is
`False`. -/
def gtMask (a b : List Cell) : List Bool :=
  List.zipWith (fun x y => match x, y with
    | some u, some w => decide (w < u)
    | _, _ => false) a b

/-- `TransportData.get_RTcond_DilFridge`
(src/src/OptoTransportAnalysis/Transport.py, lines 110-115):

    warm:  temp[start:] > temp[start:].cummax().shift().astype(float)
    cool:  temp[start:] < temp[start:].cummin().shift().astype(float)

`[start_time:]` is pandas label slicing on the (sorted) time index, embedded
as dropping the rows with label below `start_time`; `.astype(float)` is the
identity here.  The returned boolean Series is embedded as the list of its
values. -/
def get_RTcond_DilFridge (r : TransRecord) (exp_name : String)
    (start_time : ℚ) (warm : Bool) : Except PyErr (List Bool) := do
  let f ← okOr (aget r.data exp_name) .keyError
  let col ← okOr (aget f.cols "lakeshore_372_ch09_temperature") .keyError
  let vals := ((f.index.zip col).dropWhile (fun p => decide (p.1 < start_time))).map (·.2)
  if warm then
    return gtMask vals (shiftP (cumRun max none vals))
  else
    return ltMask vals (shiftP (cumRun min none vals))

/-- The mask of C4 as amended, following the spec's words: a point carries
`true` exactly when it strictly exceeds the running maximum (warming) or is
strictly below the running minimum (cooling) of all strictly-prior values;
the first point, having no strictly-prior values, carries `false`. -/
def specCleanMask (vs : List ℚ) (warm : Bool) : List Bool :=
  (List.range vs.length).map (fun i =>
    match (if warm then (vs.take i).max? else (vs.take i).min?) with
    | none => false
    | some m => if warm then decide (m < vs.getD i 0) else decide (vs.getD i 0 < m))

/-- Read a named column of a named table out of the result of a transport
operation (`none` when the operation failed or the table/column is absent). -/
def tblCol (r : Except PyErr TransRecord) (exp c : String) : Option (List Cell) :=
  match r with
  | .ok rec => (aget rec.data exp).bind (fun f => aget f.cols c)
  | .error _ => none

/-- `TransportData.append_resistance_signal`
(src/src/OptoTransportAnalysis/Transport.py, lines 151-157):

    R_signal = data[exp][V] / data[exp][I]
    if gain != None:        R_signal = R_signal / self.metadata[gain]
    if sensitivity != None: R_signal = R_signal / self.metadata[sensitivity]
    data[exp][R_name] = R_signal

The `gain` / `sensitivity` parameters (annotated `float` in the source) are
used as *keys* into `self.metadata`; a JSON-loaded metadata dict has only
string keys, so a float key is looked up as `Sum.inr` and misses every
entry, raising `KeyError`.  `V` and `I` share the frame's index, so their
quotient is positional. -/
def append_resistance_signal (r : TransRecord)
    (exp_name R_name V_sig_name I_sig_name : String)
    (gain sensitivity : Option ℚ) : Except PyErr TransRecord := do
  let f ← okOr (aget r.data exp_name) .keyError
  let v ← okOr (aget f.cols V_sig_name) .keyError
  let i ← okOr (aget f.cols I_sig_name) .keyError
  let rsig0 := List.zipWith (cellBin (· / ·)) v i
  let rsig1 ← match gain with
    | none => pure rsig0
    | some g => do
        let gv ← okOr (aget r.metadata (Sum.inr g)) .keyError
        pure (rsig0.map (cellMap (· / gv)))
  let rsig2 ← match sensitivity with
    | none => pure rsig1
    | some sk => do
        let sv ← okOr (aget r.metadata (Sum.inr sk)) .keyError
        pure (rsig1.map (cellMap (· / sv)))
  return { r with data := aset r.data exp_name { f with cols := aset f.cols R_name rsig2 } }

/-- The `B_sig` argument of `append_MCA_coefficient`: the source dispatches
on `type(B_sig) is float`, so the argument is either a fixed field value or
the name of a swept-field column. -/
inductive BSig where
  | fixed : ℚ → BSig
  | swept : String → BSig
deriving DecidableEq, Repr

/-- `TransportData.append_MCA_coefficient`
(src/src/OptoTransportAnalysis/Transport.py, lines 212-226):

    MCA = data[exp][R_2f] / data[exp][R_f] / data[exp][I]
    if type(B_sig) is float: MCA = MCA / B_sig
    else:                    MCA = MCA / data[exp][B_sig]
    if gain != None:        MCA = MCA / gain
    if sensitivity != None: MCA = MCA / sensitivity
    data[exp][MCA_name] = MCA

Here (unlike `append_resistance_signal`) `gain` and `sensitivity` are used
directly as divisors. -/
def append_MCA_coefficient (r : TransRecord)
    (exp_name MCA_name R_2f_sig R_f_sig : String) (B_sig : BSig) (I_sig : String)
    (gain sensitivity : Option ℚ) : Except PyErr TransRecord := do
  let f ← okOr (aget r.data exp_name) .keyError
  let r2f ← okOr (aget f.cols R_2f_sig) .keyError
  let rf ← okOr (aget f.cols R_f_sig) .keyError
  let icol ← okOr (aget f.cols I_sig) .keyError
  let mca0 := List.zipWith (cellBin (· / ·)) (List.zipWith (cellBin (· / ·)) r2f rf) icol
  let mca1 ← match B_sig with
    | .fixed b => pure (mca0.map (cellMap (· / b)))
    | .swept bname => do
        let bcol ← okOr (aget f.cols bname) .keyError
        pure (List.zipWith (cellBin (· / ·)) mca0 bcol)
  let mca2 := match gain with
    | none => mca1
    | some g => mca1.map (cellMap (· / g))
  let mca3 := match sensitivity with
    | none => mca2
    | some sv => mca2.map (cellMap (· / sv))
  return { r with data := aset r.data exp_name { f with cols := aset f.cols MCA_name mca3 } }

/-! ## `.db` loading (`src/OptoTransportAnalysis/data.py`,
`Data.__initDataFromDB`, lines 176-194)

    eng = sqlalchemy.create_engine(...)
    self.data = OrderedDict()
    self.data["experiments"] = pandas.read_sql('experiments', eng.connect())
    self.data["runs"] = pandas.read_sql('runs', eng.connect())
    for ind, row in self.data["runs"].iterrows():
        run_params = row["parameters"].split(',')
        self.data[row["result_table_name"]] =
            pandas.read_sql(row["result_table_name"], eng.connect())
                  .groupby(run_params[0]).agg(numpy.nanmean)
-/

/-- A table as read by `pandas.read_sql`: named numeric columns in row-major
form (every row as long as `cols`). -/
structure SqlTable where
  cols : List String
  rows : List (List Cell)
deriving Repr, DecidableEq

/-- The result of `groupby(key).agg(numpy.nanmean)`: the distinct non-NaN
key values (sorted ascending, as pandas does) as the new index, the
remaining columns, and one aggregated row per key. -/
structure GroupedTable where
  keys : List ℚ
  cols : List String
  rows : List (List Cell)
deriving Repr, DecidableEq

/-- One row of the `runs` table, in the view used by the loader
(`row["result_table_name"]` and `row["parameters"]`, both strings). -/
structure RunRow where
  result_table_name : String
  parameters : String
deriving Repr, DecidableEq

/-- A value stored in `self.data` after a `.db` load: the `experiments`
frame, the `runs` frame (kept in its row view), or a grouped result
table. -/
inductive LEntry where
  | sql : SqlTable → LEntry
  | runsL : List RunRow → LEntry
  | grp : GroupedTable → LEntry
deriving DecidableEq

/-- A SQLite database file, as seen through the loader's reads: the
`experiments` table, the row view of the `runs` table, and the named result
tables (`pandas.read_sql` by table name). -/
structure RawDB where
  experiments : SqlTable
  runsRows : List RunRow
  readTable : List (String × SqlTable)
deriving Repr

/-- Python `parameters.split(',')[0]`: the characters before the first
comma (the whole string when there is none). -/
def firstParam (s : String) : String :=
  String.mk (s.toList.takeWhile (fun c => c ≠ ','))

/-- `numpy.nanmean` of a cell list: the mean of the non-NaN values, NaN when
there are none. -/
def nanmean (cells : List Cell) : Cell :=
  let vs := cells.filterMap id
  if vs.length = 0 then none else some (vs.sum / (vs.length : ℚ))

/-- Ascending insertion into a sorted list (used to embed pandas' sorted
group keys executably). -/
def insertSorted (x : ℚ) : List ℚ → List ℚ
  | [] => [x]
  | y :: t => if x ≤ y then x :: y :: t else y :: insertSorted x t

/-- Ascending insertion sort. -/
def sortKeys (l : List ℚ) : List ℚ := l.foldr insertSorted []

/-- `t.groupby(keyCol).agg(numpy.nanmean)`: `none` is the `KeyError` raised
when `keyCol` is not a column of `t`.  Rows whose key cell is NaN are
dropped (pandas `groupby` default); the distinct keys, sorted ascending,
become the index; each remaining column is aggregated per group with
`nanmean`. -/
def groupbyNanmean (t : SqlTable) (keyCol : String) : Option GroupedTable :=
  match t.cols.findIdx? (fun c => decide (c = keyCol)) with
  | none => none
  | some ki =>
      let keys : List ℚ := sortKeys ((t.rows.filterMap (fun row => row.getD ki none)).dedup)
      some { keys := keys,
             cols := t.cols.eraseIdx ki,
             rows := keys.map (fun k =>
               let grp := t.rows.filter (fun row => decide (row.getD ki none = some k))
               ((List.range t.cols.length).filter (fun j => decide (j ≠ ki))).map
                 (fun j => nanmean (grp.map (fun row => row.getD j none)))) }

/-- The `for` loop of `__initDataFromDB`: read each run's result table
(a missing table fails the `read_sql`), group it by the first comma-separated
parameter, and store it under the run's `result_table_name` (`dict`
assignment, overwriting an existing key in place). -/
def loadRuns (readT : List (String × SqlTable)) :
    List RunRow → List (String × LEntry) → Except PyErr (List (String × LEntry))
  | [], acc => .ok acc
  | row :: rest, acc => do
      let raw ← okOr (aget readT row.result_table_name) .operationalError
      let g ← okOr (groupbyNanmean raw (firstParam row.parameters)) .keyError
      loadRuns readT rest (aset acc row.result_table_name (.grp g))

/-- `Data.__initDataFromDB`: build the ordered dict, starting from the
`experiments` and `runs` entries, then process every row of `runs`. -/
def initDataFromDB (db : RawDB) : Except PyErr (List (String × LEntry)) :=
  loadRuns db.readTable db.runsRows
    [("experiments", .sql db.experiments), ("runs", .runsL db.runsRows)]

/-! ## Loader metadata resolution (`src/OptoTransportAnalysis/data.py`) -/

/-- The extension part of Python `os.path.splitext` (the suffix of the name
from its last dot, `""` when there is no dot; directory separators and
leading-dot base names do not occur in the claims' scope). -/
def pyExt (s : String) : String :=
  let cs := s.toList
  if cs.contains '.' then
    String.mk ('.' :: (cs.reverse.takeWhile (fun c => c ≠ '.')).reverse)
  else ""

/-- The stem part of Python `os.path.splitext` (everything before the last
dot, or the whole name when there is no dot). -/
def pyStem (s : String) : String :=
  let cs := s.toList
  if cs.contains '.' then
    String.mk (((cs.reverse.dropWhile (fun c => c ≠ '.')).drop 1).reverse)
  else s

/-- `Data.__initMetadata` (src/OptoTransportAnalysis/data.py, lines
157-172): asserts that the metadata file extension is `.json`
(`AssertionError('Metadata file type not supported')` otherwise) and then
parses the file.  The file system is injected as `readJson`, mapping a path
to the parsed JSON dict. -/
def initMetadata (filename_md : String)
    (readJson : String → List (String × ℚ)) : Except PyErr (List (String × ℚ)) :=
  if pyExt filename_md = ".json" then .ok (readJson filename_md)
  else .error (.assertionError "Metadata file type not supported")

/-- The metadata phase of `Data.__init__` (src/OptoTransportAnalysis/data.py,
lines 110-132).  `filename_md` is the explicit constructor argument;
`jsonSiblingNonempty` is the result of the
`os.path.exists(stem + ".json") and os.path.getsize(stem + ".json") > 0`
test; `promptMd` is the string returned by the
`tkinter.filedialog.askopenfilename` prompt, which returns `""` (not
`None`) when the user cancels.  The attribute `self.filename_md` is
compared against `None` afterwards; only that (unreachable) branch yields
the warning and the empty metadata dict. -/
def dataInitMetadataPhase (filename : String) (filename_md : Option String)
    (jsonSiblingNonempty : Bool) (promptMd : String)
    (readJson : String → List (String × ℚ)) : Except PyErr (List (String × ℚ)) :=
  let fmd : Option String :=
    match filename_md with
    | some s => some s
    | none =>
        if jsonSiblingNonempty then some (pyStem filename ++ ".json")
        else some promptMd
  match fmd with
  | none => .ok []
  | some p => initMetadata p readJson

/-! ## 2D sweep parameter extraction
(`src/src/OptoTransportAnalysis/Transport.py`, `get_2d_sweep_params`,
lines 256-349) -/

/-- The recognized sweep types (module constant `sweep_types`). -/
def sweep_types : List String :=
  ["Keithley voltage", "PPMS DynaCool field", "PPMS DynaCool temp",
   "Keithley current", "AMI430 field"]

/-- The recognized sweep directions (module constant `sweep_dirns`). -/
def sweep_dirns : List String := ["", "up", "down"]

/-- One row of the `experiments` table in the view `get_2d_sweep_params`
uses (`name`, `sample_name`, `exp_id`). -/
structure ExpRow where
  name : String
  sample_name : String
  exp_id : Int
deriving Repr, DecidableEq

/-- The parts of a transport record that `get_2d_sweep_params` reads: the
`experiments` frame and, for each result table, its index.  (With this
typed view the `except KeyError` around the init-value parse is dead code:
`self.data['experiments']` and its columns always exist.) -/
structure T2DRecord where
  experiments : List ExpRow
  tables : List (String × List ℚ)
deriving Repr

/-- Python `s.split(c)` for a single-character separator. -/
def splitChar (c : Char) : List Char → List (List Char)
  | [] => [[]]
  | a :: t =>
      match splitChar c t with
      | [] => [[]]
      | h :: r => if a = c then [] :: h :: r else (a :: h) :: r

/-- Python `l[-2]`: the second-to-last element (`none` = IndexError). -/
def pyIdxNeg2 {α : Type} (l : List α) : Option α :=
  match l.reverse with
  | _ :: b :: _ => some b
  | _ => none

/-- Index of the first occurrence of `sep` as a sublist (`none` when
absent). -/
def subIdx (sep : List Char) : List Char → Option ℕ
  | [] => if sep.isEmpty then some 0 else none
  | a :: t => if sep.isPrefixOf (a :: t) then some 0 else (subIdx sep t).map (· + 1)

/-- Python `s.split(sep)[1]` for a non-empty separator: the text between
the first occurrence of `sep` and the next one (`none` = IndexError when
`sep` does not occur). -/
def pySplitIdx1 (sep : List Char) (l : List Char) : Option (List Char) :=
  match subIdx sep l with
  | none => none
  | some i =>
      let rest := l.drop (i + sep.length)
      match subIdx sep rest with
      | none => some rest
      | some j => some (rest.take j)

/-- Strip leading and trailing spaces. -/
def trimSpaces (l : List Char) : List Char :=
  ((l.dropWhile (fun c => c = ' ')).reverse.dropWhile (fun c => c = ' ')).reverse

/-- Numeric value of a digit string. -/
def digitsVal (l : List Char) : ℕ :=
  l.foldl (fun a c => 10 * a + (c.toNat - '0'.toNat)) 0

/-- Modelled behaviour of Python `float(s)` on the plain decimal literals
(optionally signed, optionally with a fractional part, surrounded by
whitespace) that occur in the experiment-log strings; exponent and
`inf`/`nan` forms are outside the claims' scope.  `none` = ValueError. -/
def parsePyFloat (s : String) : Option ℚ :=
  let cs := trimSpaces s.toList
  let neg : Bool := cs.head? = some '-'
  let cs1 : List Char :=
    if cs.head? = some '-' ∨ cs.head? = some '+' then cs.tail else cs
  let ip := cs1.takeWhile Char.isDigit
  let rest := cs1.dropWhile Char.isDigit
  let sgn : ℚ := if neg then -1 else 1
  if rest = [] then
    if ip.isEmpty then none else some (sgn * (digitsVal ip : ℚ))
  else if rest.head? = some '.' ∧ rest.tail.all Char.isDigit
      ∧ (ip ≠ [] ∨ rest.tail ≠ []) then
    some (sgn * ((digitsVal ip : ℚ)
      + (digitsVal rest.tail : ℚ) / (10 : ℚ) ^ rest.tail.length))
  else none

/-- `float(param.split(unit)[-2].split('to ')[1])`: the parse applied to
each matching `sample_name` (IndexError when a split index is out of range,
ValueError when the final text is not a float literal). -/
def parseSweepEnd (unit : Char) (sample_name : String) : Except PyErr ℚ := do
  let c1 ← okOr (pyIdxNeg2 (splitChar unit sample_name.toList)) .indexError
  let c2 ← okOr (pySplitIdx1 ("to ".toList) c1) .indexError
  okOr (parsePyFloat (String.mk c2)) .valueError

/-- `' ' + dirn` appended to a sweep name when the direction is not
empty. -/
def dirnSuffix (d : String) : String := if d = "" then "" else " " ++ d

/-- The outer `if`-chain of `get_2d_sweep_params`: for the four outer sweep
types with a branch, the init experiment name, the sweep experiment name,
and the unit character; `none` for `"Keithley current"`, which has no
branch, leaving `init_exp_name`/`exp_name`/`unit` unbound (NameError at
first use). -/
def outerNameInfo (instr typ dirn : String) : Option (String × String × Char) :=
  if typ = "Keithley voltage" then
    some ("Keithley " ++ instr ++ " voltage init",
          "Keithley " ++ instr ++ " voltage sweep" ++ dirnSuffix dirn, 'V')
  else if typ = "PPMS DynaCool field" then
    some ("PPMS DynaCool " ++ instr ++ " field init",
          "PPMS DynaCool " ++ instr ++ " field sweep" ++ dirnSuffix dirn, 'T')
  else if typ = "PPMS DynaCool temp" then
    some ("PPMS DynaCool " ++ instr ++ " temp init",
          "PPMS DynaCool " ++ instr ++ " temp sweep" ++ dirnSuffix dirn, 'K')
  else if typ = "AMI430 field" then
    some ("AMI430 " ++ instr ++ " field init",
          "AMI430 " ++ instr ++ " field sweep" ++ dirnSuffix dirn, 'T')
  else none

/-- The inner `if`-chain: for the three inner sweep types with a branch,
the constructed inner sweep name; otherwise (`"PPMS DynaCool temp"`,
`"AMI430 field"`) `exp_name` keeps the value left over from the outer
section. -/
def innerName (instr typ dirn fallback : String) : String :=
  if typ = "Keithley voltage" then
    "Keithley " ++ instr ++ " voltage sweep" ++ dirnSuffix dirn
  else if typ = "PPMS DynaCool field" then
    "PPMS DynaCool " ++ instr ++ " field sweep" ++ dirnSuffix dirn
  else if typ = "Keithley current" then
    "Keithley " ++ instr ++ " current sweep" ++ dirnSuffix dirn
  else fallback

/-- `map` through the `Except` monad (the list comprehension building
`outer_param`, which propagates the first parse failure). -/
def mapExcept {α β : Type} (f : α → Except PyErr β) :
    List α → Except PyErr (List β)
  | [] => .ok []
  | a :: t => do
      let b ← f a
      let r ← mapExcept f t
      return b :: r

/-- `TransportData.get_2d_sweep_params`: asserts the sweep types and then
the directions; builds the outer init/sweep names and unit; parses the init
value out of the first `experiments` row matching the init name
(`.iloc[0]`, IndexError when none matches) and the terminal value out of
every row matching the outer sweep name, prepending the init value; builds
the inner sweep name, collects the matching `exp_id`s, and reads the index
of `results-<sweep_ids[0]>-1` (IndexError when no row matches, KeyError
when the table is absent).  Returns `(inner_param, outer_param,
sweep_ids)`. -/
def get_2d_sweep_params (r : T2DRecord)
    (outer_sweep_instr outer_sweep_type inner_sweep_instr inner_sweep_type : String)
    (outer_dirn inner_dirn : String) :
    Except PyErr (List ℚ × List ℚ × List Int) :=
  if outer_sweep_type ∈ sweep_types ∧ inner_sweep_type ∈ sweep_types then
    if outer_dirn ∈ sweep_dirns ∧ inner_dirn ∈ sweep_dirns then do
      let names ← okOr (outerNameInfo outer_sweep_instr outer_sweep_type outer_dirn)
        .nameError
      let init_exp_name := names.1
      let exp_name := names.2.1
      let unit := names.2.2
      let initMatches := (r.experiments.filter
        (fun e => decide (e.name = init_exp_name))).map (·.sample_name)
      let first ← okOr initMatches.head? .indexError
      let init_val ← parseSweepEnd unit first
      let outerMatches := (r.experiments.filter
        (fun e => decide (e.name = exp_name))).map (·.sample_name)
      let outer_rest ← mapExcept (parseSweepEnd unit) outerMatches
      let outer_param := init_val :: outer_rest
      let exp_name2 := innerName inner_sweep_instr inner_sweep_type inner_dirn exp_name
      let sweep_ids := (r.experiments.filter
        (fun e => decide (e.name = exp_name2))).map (·.exp_id)
      let id0 ← okOr sweep_ids.head? .indexError
      let inner_param ← okOr (aget r.tables ("results-" ++ toString id0 ++ "-1"))
        .keyError
      return (inner_param, outer_param, sweep_ids)
    else .error (.assertionError "Invalid sweep direction(s)")
  else .error (.assertionError "Invalid sweep type(s)")

/-- Accumulator view of `cumRun` on NaN-free data: fold the running
extremum (`none` = no value seen yet) over a value list. -/
def foldAcc (f : ℚ → ℚ → ℚ) (acc : Option ℚ) (l : List ℚ) : Option ℚ :=
  l.foldl (fun m v => some (match m with | none => v | some m0 => f m0 v)) acc

/-! ## Concrete fixtures for evaluation theorems -/

/-- A strictly decreasing three-point temperature channel on time index
`[0, 1, 2]`. -/
def rtFrame : PFrame :=
  { index := [0, 1, 2],
    cols := [("lakeshore_372_ch09_temperature", [some 3, some 2, some 1])] }

/-- A transport record holding `rtFrame` under experiment name `"e"`. -/
def rtFixture : TransRecord :=
  { data := [("e", rtFrame)], metadata := [] }

/-! ## Low-pass filter (`src/src/OptoTransportAnalysis/Optics.py`,
`apply_lpf`, lines 82-89)

    fft_vals = rfft(self.data[key_name].values)
    fft_vals[n_trunc:] = 0
    self.data[key_name + ' (FFT Smoothed)'] = irfft(fft_vals)

`scipy.fft.rfft` / `scipy.fft.irfft` are external library calls; they are
modelled by their documented mathematics: `rfft` returns the DFT bins
`0 .. n/2` of the real input (`n//2 + 1` complex values), and `irfft y`
inverts the Hermitian extension of `y`, producing `2*(len(y)-1)` real
samples.  These need complex roots of unity, hence `noncomputable`
definitions over `ℂ`/`ℝ` - the one part of the development that exact
rationals cannot express. -/

/-- Bin `k` of the discrete Fourier transform of a complex list. -/
noncomputable def dftC (x : List ℂ) (k : ℕ) : ℂ :=
  ∑ j ∈ Finset.range x.length,
    x.getD j 0 * Complex.exp (-(2 * Real.pi * Complex.I) * j * k / x.length)

/-- `scipy.fft.rfft`: DFT bins `0 .. n/2` of a real input of length `n`. -/
noncomputable def rfft (x : List ℝ) : List ℂ :=
  (List.range (x.length / 2 + 1)).map (fun k => dftC (x.map Complex.ofReal) k)

/-- NumPy slice assignment `y[t:] = 0`. -/
def zeroTail (y : List ℂ) (t : ℕ) : List ℂ :=
  (List.range y.length).map (fun i => if t ≤ i then 0 else y.getD i 0)

/-- The Hermitian extension of a half spectrum `y` of length `m` to the full
`2*(m-1)` bins: bins beyond `m` are conjugates of their mirror images. -/
noncomputable def hermExtend (y : List ℂ) (k : ℕ) : ℂ :=
  if k < y.length then y.getD k 0
  else (starRingEnd ℂ) (y.getD (2 * (y.length - 1) - k) 0)

/-- `scipy.fft.irfft` with its default output length `2*(len(y)-1)`: the
inverse DFT of the Hermitian extension, real parts taken. -/
noncomputable def irfft (y : List ℂ) : List ℝ :=
  (List.range (2 * (y.length - 1))).map (fun j : ℕ =>
    ((1 / ((2 * (y.length - 1) : ℕ) : ℂ)) * ∑ k ∈ Finset.range (2 * (y.length - 1)),
      hermExtend y k * Complex.exp ((2 * Real.pi * Complex.I) * (j : ℂ) * (k : ℂ)
        / ((2 * (y.length - 1) : ℕ) : ℂ))).re)

/-- `OpticsData.apply_lpf`: read the column, zero the bins from `n_trunc`,
inverse-transform, and assign the resulting array to
`"<key_name> (FFT Smoothed)"`.  Assigning an array whose length differs
from the frame's row count raises `ValueError` (pandas "Length of values
does not match length of index").  The claims' columns are NaN-free; the
embedding reads a missing cell as 0, a value the theorems never exercise
(they hypothesize every cell present). -/
noncomputable def apply_lpf (d : OFrame ℝ) (key_name : String) (n_trunc : ℕ) :
    Except PyErr (OFrame ℝ) := do
  let col ← okOr (oGetCol d key_name) .keyError
  let vals : List ℝ := col.map (fun c => c.getD 0)
  let fft_vals := zeroTail (rfft vals) n_trunc
  let out := irfft fft_vals
  if out.length = d.nrows then
    .ok (oSetCol d (key_name ++ " (FFT Smoothed)") (out.map some))
  else .error .valueError

/-- The module-level `defined_sum_cosine_windows` dict
(src/src/OptoTransportAnalysis/Optics.py, lines 11-19).  Python float
literals are exact decimals, hence exact in `ℚ`. -/
def defined_sum_cosine_windows : List (PyKey × List ℚ) :=
  [(Sum.inl "Hann", [0.5, 0.5, 0, 0, 0]),
   (Sum.inl "Hamming", [25/46, 1 - 25/46, 0, 0, 0]),
   (Sum.inl "Blackman", [0.42, 0.5, 0.08, 0, 0]),
   (Sum.inl "Blackman (exact)", [7938/18608, 9240/18608, 1430/18608, 0, 0]),
   (Sum.inl "Nuttall", [0.355768, 0.487396, 0.144232, 0.012604, 0]),
   (Sum.inl "Blackman-Nuttall", [0.3635819, 0.4891775, 0.1365995, 0.0106411, 0]),
   (Sum.inl "Blackman-Harris", [0.35875, 0.48829, 0.14128, 0.01168, 0]),
   (Sum.inl "Flat top", [0.21557895, 0.41663158, 0.277263158, 0.083578947, 0.006947368]),
   (Sum.inl "Custom", [])]

/-- Full discrete convolution: `(x * w)[k] = sum_i x[i] * w[k - i]`, of
length `len(x) + len(w) - 1`. -/
noncomputable def convFull (x w : List ℝ) : List ℝ :=
  (List.range (x.length + w.length - 1)).map (fun k : ℕ =>
    ∑ i ∈ Finset.range x.length, if i ≤ k then x.getD i 0 * w.getD (k - i) 0 else 0)

/-- `scipy.signal.convolve(x, w, mode='same')`: the centered slice of the
full convolution with the length of the first input (scipy's `_centered`
drops `(full_len - out_len) // 2 = (len(w) - 1) // 2` leading samples). -/
noncomputable def convSame (x w : List ℝ) : List ℝ :=
  ((convFull x w).drop ((w.length - 1) / 2)).take x.length

/-- `OpticsData.apply_sum_cosine_window`
(src/src/OptoTransportAnalysis/Optics.py, lines 100-139): assert the window
name is a key of `defined_sum_cosine_windows`; unless `"Custom"`, overwrite
the five `alpha` arguments with the dict's coefficients; build the length-`N`
window `alpha0 - alpha1*cos(2*pi*n/N) + alpha2*cos(4*pi*n/N)
- alpha3*cos(6*pi*n/N) + alpha4*cos(8*pi*n/N)`; assign the same-mode
convolution of the signal with the window, divided by the window's sum, to
`"<key_name> (<window_name>)"`.  As in `apply_lpf`, the result array must
match the frame's row count (pandas `ValueError` otherwise), the source
method never touches `self.metadata`, and a missing cell is read as 0, a
case outside the claims' NaN-free scope. -/
noncomputable def apply_sum_cosine_window (d : OFrame ℝ) (key_name window_name : String)
    (N : ℕ) (alpha0 alpha1 alpha2 alpha3 alpha4 : ℝ) : Except PyErr (OFrame ℝ) := do
  let coeffs ← okOr (aget defined_sum_cosine_windows (Sum.inl window_name))
    (.assertionError "Selected window not a valid choice")
  let a0 := if window_name = "Custom" then alpha0 else ((coeffs.getD 0 0 : ℚ) : ℝ)
  let a1 := if window_name = "Custom" then alpha1 else ((coeffs.getD 1 0 : ℚ) : ℝ)
  let a2 := if window_name = "Custom" then alpha2 else ((coeffs.getD 2 0 : ℚ) : ℝ)
  let a3 := if window_name = "Custom" then alpha3 else ((coeffs.getD 3 0 : ℚ) : ℝ)
  let a4 := if window_name = "Custom" then alpha4 else ((coeffs.getD 4 0 : ℚ) : ℝ)
  let col ← okOr (oGetCol d key_name) .keyError
  let sig : List ℝ := col.map (fun c => c.getD 0)
  let window : List ℝ := (List.range N).map (fun n : ℕ =>
    a0 - a1 * Real.cos (n * (2 * Real.pi) / N) + a2 * Real.cos (n * (4 * Real.pi) / N)
      - a3 * Real.cos (n * (6 * Real.pi) / N) + a4 * Real.cos (n * (8 * Real.pi) / N))
  let out := (convSame sig window).map (fun v => v / window.sum)
  if out.length = d.nrows then
    .ok (oSetCol d (key_name ++ " (" ++ window_name ++ ")") (out.map some))
  else .error .valueError

/-- `Except.isOk` as a plain definition. -/
def isOkE {α : Type} : Except PyErr α → Bool
  | .ok _ => true
  | .error _ => false

/-- A 2D-sweep record holding the outer init experiment (terminal value
`1.0 V`) and one inner current sweep (id 7, result index `[0, 1]`), but no
row for the outer sweep experiment name. -/
def sweepFixture : T2DRecord :=
  { experiments :=
      [{ name := "Keithley K1 voltage init",
         sample_name := "sweep from 0.0 V to 1.0 V", exp_id := 1 },
       { name := "Keithley K2 current sweep", sample_name := "inner", exp_id := 7 }],
    tables := [("results-7-1", [0, 1])] }

/-- A two-row real-valued optics frame with column `x = [1, 2]`. -/
def lpfFixture : OFrame ℝ :=
  { nrows := 2, cols := [("x", [some 1, some 2])] }

/-- A one-row (odd-length) real-valued optics frame with column `x = [1]`. -/
def lpfOddFixture : OFrame ℝ :=
  { nrows := 1, cols := [("x", [some 1])] }

/-- A three-row result table with key column `gate` (values 1, 1, 2) and a
data column `vxx` (10, 20, NaN). -/
def rawFixture : SqlTable :=
  { cols := ["gate", "vxx"],
    rows := [[some 1, some 10], [some 1, some 20], [some 2, none]] }

/-- A database with a single run pointing at `rawFixture` with parameter
list `"gate,vxx"`. -/
def dbFixture : RawDB :=
  { experiments := { cols := ["exp_id"], rows := [[some 1]] },
    runsRows := [{ result_table_name := "results-1-1", parameters := "gate,vxx" }],
    readTable := [("results-1-1", rawFixture)] }

/-- The grouping of `rawFixture` by `gate`: keys 1 and 2, `vxx` means
`(10+20)/2 = 15` and NaN. -/
def grpFixture : GroupedTable :=
  { keys := [1, 2], cols := ["vxx"], rows := [[some 15], [none]] }

/-- The table dict produced by loading `dbFixture`. -/
def dbTablesFixture : List (String × LEntry) :=
  [("experiments", .sql dbFixture.experiments),
   ("runs", .runsL dbFixture.runsRows),
   ("results-1-1", .grp grpFixture)]

/-- A one-row voltage/current frame. -/
def resFrame : PFrame :=
  { index := [0], cols := [("V", [some 2]), ("I", [some 1])] }

/-- A transport record holding `resFrame`, with a string-keyed metadata
entry `"gain" ↦ 5` (as loaded from JSON). -/
def resFixture : TransRecord :=
  { data := [("e", resFrame)], metadata := [(Sum.inl "gain", 5)] }

/-- A one-row frame with the four signals used by the MCA computation; the
swept-field column `B` is constantly 1. -/
def mcaFrame : PFrame :=
  { index := [0],
    cols := [("R2f", [some 8]), ("Rf", [some 2]), ("I", [some 2]), ("B", [some 1])] }

/-- A transport record holding `mcaFrame` under experiment name `"e"`. -/
def mcaFixture : TransRecord :=
  { data := [("e", mcaFrame)], metadata := [] }

/-- A two-row transport record with a non-palindromic resistance column
`R = [1, 3]` on index `[0, 1]`. -/
def symmFixture : TransRecord :=
  { data := [("e", { index := [0, 1], cols := [("R", [some 1, some 3])] })],
    metadata := [] }

/-- A one-row optics record with two intensity columns holding 1 and 3. -/
def avgFixture : OptRecord :=
  { data := { nrows := 1,
              cols := [("Intensity_1", [some 1]), ("Intensity_2", [some 3])] },
    metadata := [] }

/-- C1: `append_symm_antisymm_rho` does not compute the positional
symmetrization.  Because pandas aligns `R + R.iloc[::-1]` by index label,
the sum is `2·R` at every label, so `R_antisymm` is identically zero — here
`[0, 0]` — while the claimed positional formula `(R[i] - R[n-1-i])/2` gives
`[-1, 1]` on the fixture `R = [1, 3]`. -/
theorem append_symm_antisymm_rho_alignment_bug :
    tblCol (append_symm_antisymm_rho symmFixture "e" "R") "e" "R_antisymm"
      = some [some 0, some 0] ∧
    tblCol (append_symm_antisymm_rho symmFixture "e" "R") "e" "R_antisymm"
      ≠ some [some (-1), some 1] := by
  have h : tblCol (append_symm_antisymm_rho symmFixture "e" "R") "e" "R_antisymm"
      = some [some 0, some 0] := by
    simp [tblCol, append_symm_antisymm_rho, symmFixture, aget, aset, okOr,
      serAlignAdd, serAlignSub, serGet, cellBin, cellMap, List.find?, bind,
      Except.bind, pure, Except.pure]
  refine ⟨h, ?_⟩
  rw [h]
  intro hc
  simp only [Option.some.injEq, List.cons.injEq] at hc
  exact absurd hc.1 (by norm_num)

/-- C2: `add_average_signal` ignores an explicitly supplied frame count.
On the fixture (one row, intensities 1 and 3) with an explicit frame count
of 4 the source divides by the number of matching columns (2), producing 2,
not the claimed `(1+3)/4 = 1`. -/
theorem add_average_signal_ignores_num_frames :
    oGetCol (add_average_signal avgFixture (some 4)).data "Average Intensity"
      = some [some 2] ∧
    oGetCol (add_average_signal avgFixture (some 4)).data "Average Intensity"
      ≠ some [some 1] := by
  have h : oGetCol (add_average_signal avgFixture (some 4)).data "Average Intensity"
      = some [some 2] := by
    simp [oGetCol, add_average_signal, avgFixture, aget, aset, oSetCol,
      strStarts, List.find?, List.range_succ]
    norm_num
  refine ⟨h, ?_⟩
  rw [h]
  intro hc
  simp only [Option.some.injEq, List.cons.injEq] at hc
  exact absurd hc.1 (by norm_num)

/-! ## C4: `get_RTcond_DilFridge` -/

theorem cumRun_length (f : ℚ → ℚ → ℚ) :
    ∀ (acc : Option ℚ) (l : List Cell), (cumRun f acc l).length = l.length := by
  intro acc l
  induction l generalizing acc with
  | nil => rfl
  | cons c t ih =>
      cases c with
      | none => simp [cumRun, ih]
      | some v => simp [cumRun, ih]

theorem foldAcc_some (f : ℚ → ℚ → ℚ) :
    ∀ (l : List ℚ) (m : ℚ), foldAcc f (some m) l = some (l.foldl f m) := by
  intro l
  induction l with
  | nil => intro m; rfl
  | cons v t ih => intro m; simp [foldAcc, List.foldl] at ih ⊢; exact ih (f m v)

theorem foldAcc_none_min : ∀ vs : List ℚ, foldAcc min none vs = vs.min? := by
  intro vs
  cases vs with
  | nil => rfl
  | cons v t =>
      show foldAcc min (some v) t = _
      rw [foldAcc_some, List.min?]

theorem foldAcc_none_max : ∀ vs : List ℚ, foldAcc max none vs = vs.max? := by
  intro vs
  cases vs with
  | nil => rfl
  | cons v t =>
      show foldAcc max (some v) t = _
      rw [foldAcc_some, List.max?]

theorem cumRun_getD (f : ℚ → ℚ → ℚ) :
    ∀ (vs : List ℚ) (acc : Option ℚ) (i : ℕ), i < vs.length →
      (cumRun f acc (vs.map some)).getD i none = foldAcc f acc (vs.take (i + 1)) := by
  intro vs
  induction vs with
  | nil => intro acc i h; exact absurd h (by simp)
  | cons v t ih =>
      intro acc i h
      cases i with
      | zero => simp [cumRun, foldAcc]
      | succ j =>
          have hj : j < t.length := by simpa using h
          simp only [List.map_cons, cumRun, List.getD_cons_succ, List.take_succ_cons]
          rw [ih _ j hj]
          simp [foldAcc]

theorem ltMask_cummin_eq_spec (vs : List ℚ) :
    ltMask (vs.map some) (shiftP (cumRun min none (vs.map some)))
      = specCleanMask vs false := by
  apply List.ext_getElem
  · simp [ltMask, shiftP, specCleanMask, cumRun_length]
    omega
  · intro i h1 h2
    have hi : i < vs.length := by
      simpa [specCleanMask] using h2
    simp only [ltMask, List.getElem_zipWith, List.getElem_map, specCleanMask,
      List.getElem_range]
    cases i with
    | zero =>
        simp [shiftP]
    | succ j =>
        have hj : j < vs.length - 1 := by omega
        have hsl : j + 1 < (shiftP (cumRun min none (vs.map some))).length := by
          simp [shiftP, cumRun_length]
          omega
        have hdl : (shiftP (cumRun min none (vs.map some)))[j + 1]
            = (cumRun min none (vs.map some)).getD j none := by
          simp only [shiftP, List.getElem_cons_succ]
          rw [List.getElem_dropLast, List.getElem_eq_getElem?_get]
          · rw [List.getD_eq_getElem?_getD]
            have : j < (cumRun min none (vs.map some)).length := by
              simp [cumRun_length]; omega
            simp [List.getElem?_eq_getElem this]
        rw [hdl, cumRun_getD min vs none j (by omega), foldAcc_none_min]
        cases hm : (vs.take (j + 1)).min? with
        | none => simp
        | some m => simp [List.getElem?_eq_getElem hi]

theorem gtMask_cummax_eq_spec (vs : List ℚ) :
    gtMask (vs.map some) (shiftP (cumRun max none (vs.map some)))
      = specCleanMask vs true := by
  apply List.ext_getElem
  · simp [gtMask, shiftP, specCleanMask, cumRun_length]
    omega
  · intro i h1 h2
    have hi : i < vs.length := by
      simpa [specCleanMask] using h2
    simp only [gtMask, List.getElem_zipWith, List.getElem_map, specCleanMask,
      List.getElem_range]
    cases i with
    | zero =>
        simp [shiftP]
    | succ j =>
        have hj : j < vs.length - 1 := by omega
        have hsl : j + 1 < (shiftP (cumRun max none (vs.map some))).length := by
          simp [shiftP, cumRun_length]
          omega
        have hdl : (shiftP (cumRun max none (vs.map some)))[j + 1]
            = (cumRun max none (vs.map some)).getD j none := by
          simp only [shiftP, List.getElem_cons_succ]
          rw [List.getElem_dropLast, List.getElem_eq_getElem?_get]
          · rw [List.getD_eq_getElem?_getD]
            have : j < (cumRun max none (vs.map some)).length := by
              simp [cumRun_length]; omega
            simp [List.getElem?_eq_getElem this]
        rw [hdl, cumRun_getD max vs none j (by omega), foldAcc_none_max]
        cases hm : (vs.take (j + 1)).max? with
        | none => simp
        | some m => simp [List.getElem?_eq_getElem hi]

theorem specCleanMask_of_strictly_decreasing (vs : List ℚ)
    (hchain : List.Chain' (· > ·) vs) (hne : vs ≠ []) :
    specCleanMask vs false = false :: List.replicate (vs.length - 1) true := by
  have hn : 0 < vs.length := List.length_pos.mpr hne
  have hp : vs.Pairwise (· > ·) := List.chain'_iff_pairwise.mp hchain
  apply List.ext_getElem
  · simp only [specCleanMask, List.length_map, List.length_range, List.length_cons,
      List.length_replicate]
    omega
  · intro i h1 h2
    have hi : i < vs.length := by simpa [specCleanMask] using h1
    simp only [specCleanMask, List.getElem_map, List.getElem_range]
    cases i with
    | zero => simp
    | succ j =>
        have hcons : (false :: List.replicate (vs.length - 1) true)[j + 1] = true := by
          simp only [List.getElem_cons_succ]
          exact List.getElem_replicate ..
        rw [hcons]
        obtain ⟨a, t, hat⟩ : ∃ a t, vs.take (j + 1) = a :: t := by
          have hl : (vs.take (j + 1)).length = j + 1 := by
            rw [List.length_take]
            omega
          cases h : vs.take (j + 1) with
          | nil => rw [h] at hl; simp at hl
          | cons a t => exact ⟨a, t, rfl⟩
        have hmin : ∃ m, (vs.take (j + 1)).min? = some m := by
          rw [hat]; exact ⟨_, rfl⟩
        obtain ⟨m, hm⟩ := hmin
        simp only [hm, if_true]
        have hmem : m ∈ vs.take (j + 1) :=
          List.min?_mem (fun a b => min_choice a b) hm
        obtain ⟨k, hk, hkm⟩ := List.getElem_of_mem hmem
        have hkj : k < j + 1 := by
          have := hk; simp at this; omega
        have hkvs : k < vs.length := by omega
        have hkv : (vs.take (j + 1))[k] = vs[k] := by
          simp [List.getElem_take]
        have hlt : vs[k] > vs[j + 1] := by
          have hpg := List.pairwise_iff_getElem.mp hp k (j + 1) hkvs hi hkj
          exact hpg
        have hfin : vs[j + 1] < m := by
          rw [← hkm, hkv]
          exact hlt
        simp [List.getElem?_eq_getElem hi, hfin]

/-- C4 (amended): `get_RTcond_DilFridge` returns, for the sliced NaN-free
temperature series, the mask that is `false` at the first point (the
comparison with the shifted running extremum is against NaN there) and at
every later point is `true` exactly when the value strictly exceeds the
running maximum (warming) or is strictly below the running minimum (cooling)
of the strictly-prior values; consequently on a strictly monotonically
decreasing series with `warm = false` every point except the first is
`true`. -/
theorem get_RTcond_DilFridge_spec
    (r : TransRecord) (exp_name : String) (start_time : ℚ) (warm : Bool)
    (f : PFrame) (col : List Cell) (vals : List ℚ)
    (hf : aget r.data exp_name = some f)
    (hcol : aget f.cols "lakeshore_372_ch09_temperature" = some col)
    (hvals : ((f.index.zip col).dropWhile (fun p => decide (p.1 < start_time))).map (·.2)
        = vals.map some) :
    get_RTcond_DilFridge r exp_name start_time warm = .ok (specCleanMask vals warm)
    ∧ (warm = false → List.Chain' (· > ·) vals → vals ≠ [] →
        get_RTcond_DilFridge r exp_name start_time warm
          = .ok (false :: List.replicate (vals.length - 1) true)) := by
  have hrun : get_RTcond_DilFridge r exp_name start_time warm
      = .ok (specCleanMask vals warm) := by
    simp only [get_RTcond_DilFridge, hf, hcol, okOr, bind, Except.bind, hvals]
    cases warm with
    | false => simp [ltMask_cummin_eq_spec, pure, Except.pure]
    | true => simp [gtMask_cummax_eq_spec, pure, Except.pure]
  refine ⟨hrun, fun hw hchain hne => ?_⟩
  subst hw
  rw [hrun, specCleanMask_of_strictly_decreasing vals hchain hne]

/-- Witness for C4: on the concrete strictly decreasing series `[3, 2, 1]`
the mask is `[false, true, true]`. -/
theorem get_RTcond_DilFridge_spec_witness :
    get_RTcond_DilFridge rtFixture "e" 0 false = .ok [false, true, true] := by
  have h := (get_RTcond_DilFridge_spec rtFixture "e" 0 false rtFrame
      [some 3, some 2, some 1] [3, 2, 1]
      (by simp [rtFixture, aget, List.find?])
      (by simp [rtFrame, aget, List.find?])
      (by norm_num [rtFrame, List.dropWhile])).2 rfl
      (by constructor <;> norm_num) (by simp)
  simpa using h

/-- C4 counterexample: the claim as stated requires the mask to be true at
every point of a strictly monotonically decreasing series, including the
first; on `[3, 2, 1]` the code returns `[false, true, true]`, whose first
point is `false`. -/
theorem get_RTcond_DilFridge_first_point_false :
    get_RTcond_DilFridge rtFixture "e" 0 false ≠ .ok [true, true, true] := by
  have h : get_RTcond_DilFridge rtFixture "e" 0 false = .ok [false, true, true] := by
    unfold get_RTcond_DilFridge rtFixture rtFrame
    norm_num [aget, List.find?, okOr, bind, Except.bind, pure, Except.pure,
      List.dropWhile, cumRun, shiftP, ltMask, min_def]
  rw [h]
  intro hc
  exact absurd (Except.ok.inj hc) (by simp)

/-! ## Association-list frame lemmas -/

theorem aget_aset_self {κ β : Type} [DecidableEq κ] :
    ∀ (l : List (κ × β)) (k : κ) (v : β), aget (aset l k v) k = some v := by
  intro l k v
  induction l with
  | nil => simp [aset, aget, List.find?]
  | cons p t ih =>
      by_cases h : p.1 = k
      · simp [aset, h, aget, List.find?]
      · cases p with
        | mk k0 v0 =>
            simp only at h
            simp only [aset, if_neg h]
            simpa [aget, List.find?, h] using ih

theorem aget_aset_ne {κ β : Type} [DecidableEq κ] :
    ∀ (l : List (κ × β)) (k k' : κ) (v : β), k' ≠ k →
      aget (aset l k v) k' = aget l k' := by
  intro l k k' v hne
  have hks : k ≠ k' := fun h => hne h.symm
  induction l with
  | nil => simp [aset, aget, List.find?, hks]
  | cons p t ih =>
      cases p with
      | mk k0 v0 =>
          by_cases h : k0 = k
          · subst h
            simp [aset, aget, List.find?, hks]
          · simp only [aset, if_neg h]
            simp only [aget, List.find?] at ih ⊢
            by_cases h0 : k0 = k'
            · simp [h0]
            · simp [h0, ih]

/-! ## C5: loader metadata resolution -/

/-- C5: with no explicit metadata path, no non-empty same-stem `.json`
sibling, and the file prompt cancelled (tkinter returns `""`, not `None`),
`Data.__init__` does not reach the warn-and-set-`{}` branch: it passes the
empty string to `__initMetadata`, whose extension assertion fails, so the
load aborts with `AssertionError('Metadata file type not supported')`
instead of succeeding with empty metadata. -/
theorem dataInitMetadataPhase_cancel_asserts :
    dataInitMetadataPhase "data.csv" none false "" (fun _ => [("k", 1)])
      = .error (.assertionError "Metadata file type not supported")
    ∧ dataInitMetadataPhase "data.csv" none false "" (fun _ => [("k", 1)])
      ≠ .ok [] := by
  refine ⟨rfl, ?_⟩
  intro h
  rw [show dataInitMetadataPhase "data.csv" none false "" (fun _ => [("k", 1)])
      = .error (.assertionError "Metadata file type not supported") from rfl] at h
  exact absurd h (by simp)

/-! ## C6: `append_resistance_signal` -/

/-- C6: a numeric `gain` passed to `append_resistance_signal` is used as a
metadata dictionary key, not as a divisor: on a record whose (JSON-loaded,
hence string-keyed) metadata holds `"gain" ↦ 5`, passing `gain = 5.0`
raises `KeyError` instead of writing `V/I/5`; with neither optional
argument the method writes exactly `V/I`. -/
theorem append_resistance_signal_gain_is_metadata_key :
    append_resistance_signal resFixture "e" "R" "V" "I" (some 5) none
      = .error .keyError
    ∧ tblCol (append_resistance_signal resFixture "e" "R" "V" "I" none none) "e" "R"
      = some [some 2] := by
  constructor
  · simp [append_resistance_signal, resFixture, resFrame, aget, aset, okOr,
      bind, Except.bind, pure, Except.pure, List.find?]
  · simp [append_resistance_signal, resFixture, resFrame, aget, aset, okOr,
      bind, Except.bind, pure, Except.pure, List.find?, tblCol, cellBin]

/-! ## C7: `append_MCA_coefficient` -/

theorem cellMap_comp_fun (f g : ℚ → ℚ) :
    (cellMap f ∘ cellMap g) = cellMap (fun u => f (g u)) := by
  funext x
  cases x <;> simp [cellMap]

theorem map_cellMap_congr {F G : ℚ → ℚ} (m0 : List Cell) (h : ∀ u, F u = G u) :
    m0.map (cellMap F) = m0.map (cellMap G) := by
  apply List.map_congr_left
  intro x _
  cases x <;> simp [cellMap, h]

theorem zipWith_div_const_col (b : ℚ) :
    ∀ (m0 bcol : List Cell), (∀ c ∈ bcol, c = some b) → m0.length ≤ bcol.length →
      List.zipWith (cellBin (· / ·)) m0 bcol = m0.map (cellMap (· / b)) := by
  intro m0
  induction m0 with
  | nil => intro bcol _ _; simp
  | cons x xs ih =>
      intro bcol hconst hlen
      cases bcol with
      | nil => simp at hlen
      | cons c cs =>
          have hc : c = some b := hconst c (by simp)
          subst hc
          have hx : cellBin (· / ·) x (some b) = cellMap (· / b) x := by
            cases x <;> simp [cellBin, cellMap]
          simp only [List.zipWith_cons_cons, List.map_cons, hx]
          rw [ih cs (fun c hm => hconst c (by simp [hm])) (by simpa using hlen)]

/-- C7: `append_MCA_coefficient` writes `R_2f/(R_f·B·I)` (further divided by
the optional gain and sensitivity): with a fixed numeric field, doubling
`b_field` halves every output cell, and calling it with the name of a
swept-field column whose every entry equals the fixed value `b` produces
the identical result record. -/
theorem append_MCA_coefficient_spec
    (r : TransRecord) (exp_name MCA_name R_2f_sig R_f_sig I_sig bname : String)
    (b : ℚ) (gain sensitivity : Option ℚ) (f : PFrame) (r2f rf icol bcol : List Cell)
    (hf : aget r.data exp_name = some f)
    (h2f : aget f.cols R_2f_sig = some r2f)
    (hrf : aget f.cols R_f_sig = some rf)
    (hic : aget f.cols I_sig = some icol)
    (hb : aget f.cols bname = some bcol)
    (hconst : ∀ c ∈ bcol, c = some b)
    (hlen : r2f.length ≤ bcol.length) :
    tblCol (append_MCA_coefficient r exp_name MCA_name R_2f_sig R_f_sig
        (.fixed (2 * b)) I_sig gain sensitivity) exp_name MCA_name
      = (tblCol (append_MCA_coefficient r exp_name MCA_name R_2f_sig R_f_sig
          (.fixed b) I_sig gain sensitivity) exp_name MCA_name).map
            (List.map (cellMap (· / 2)))
    ∧ append_MCA_coefficient r exp_name MCA_name R_2f_sig R_f_sig
        (.swept bname) I_sig gain sensitivity
      = append_MCA_coefficient r exp_name MCA_name R_2f_sig R_f_sig
          (.fixed b) I_sig gain sensitivity := by
  have hm0len : (List.zipWith (cellBin (· / ·))
      (List.zipWith (cellBin (· / ·)) r2f rf) icol).length ≤ bcol.length := by
    simp only [List.length_zipWith]
    omega
  constructor
  · simp only [append_MCA_coefficient, hf, h2f, hrf, hic, okOr, bind,
      Except.bind, pure, Except.pure, tblCol, aget_aset_self, Option.some_bind,
      Option.map_some', Option.some.injEq]
    cases gain <;> cases sensitivity
    all_goals
      simp only [List.map_map, cellMap_comp_fun, Option.some.injEq]
      apply map_cellMap_congr
      intro u
      ring
  · simp only [append_MCA_coefficient, hf, h2f, hrf, hic, hb, okOr, bind,
      Except.bind, pure, Except.pure]
    rw [zipWith_div_const_col b _ bcol hconst hm0len]

/-- Witness for C7 at the concrete record `mcaFixture` (`R_2f = 8`,
`R_f = 2`, `I = 2`, constant swept field `B = 1`, fixed value `b = 1`). -/
theorem append_MCA_coefficient_spec_witness :
    tblCol (append_MCA_coefficient mcaFixture "e" "G" "R2f" "Rf"
        (.fixed (2 * 1)) "I" none none) "e" "G"
      = (tblCol (append_MCA_coefficient mcaFixture "e" "G" "R2f" "Rf"
          (.fixed 1) "I" none none) "e" "G").map (List.map (cellMap (· / 2)))
    ∧ append_MCA_coefficient mcaFixture "e" "G" "R2f" "Rf"
        (.swept "B") "I" none none
      = append_MCA_coefficient mcaFixture "e" "G" "R2f" "Rf"
          (.fixed 1) "I" none none :=
  append_MCA_coefficient_spec mcaFixture "e" "G" "R2f" "Rf" "I" "B" 1 none none
    mcaFrame [some 8] [some 2] [some 2] [some 1]
    (by simp [mcaFixture, aget, List.find?])
    (by simp [mcaFrame, aget, List.find?])
    (by simp [mcaFrame, aget, List.find?])
    (by simp [mcaFrame, aget, List.find?])
    (by simp [mcaFrame, aget, List.find?])
    (by simp)
    (by simp)

/-! ## C3: `.db` loading -/

theorem mem_map_fst_aset {κ β : Type} [DecidableEq κ] :
    ∀ (l : List (κ × β)) (k k' : κ) (v : β),
      k' ∈ (aset l k v).map (·.1) ↔ k' ∈ l.map (·.1) ∨ k' = k := by
  intro l k k' v
  induction l with
  | nil => simp [aset]
  | cons p t ih =>
      cases p with
      | mk k0 v0 =>
          by_cases h : k0 = k
          · subst h
            simp [aset]
            tauto
          · simp [aset, if_neg h, ih]
            tauto

theorem aset_keys_nodup {κ β : Type} [DecidableEq κ] :
    ∀ (l : List (κ × β)) (k : κ) (v : β),
      (l.map (·.1)).Nodup → ((aset l k v).map (·.1)).Nodup := by
  intro l k v hnd
  induction l with
  | nil => simp [aset]
  | cons p t ih =>
      cases p with
      | mk k0 v0 =>
          simp only [List.map_cons, List.nodup_cons] at hnd
          by_cases h : k0 = k
          · subst h
            have hrw : aset ((k0, v0) :: t) k0 v = (k0, v) :: t := by
              simp [aset]
            rw [hrw]
            simpa using hnd
          · simp only [aset, if_neg h, List.map_cons, List.nodup_cons]
            refine ⟨?_, ih hnd.2⟩
            rw [mem_map_fst_aset]
            push_neg
            exact ⟨hnd.1, h⟩

theorem countP_keys_eq_one {κ β : Type} [DecidableEq κ] :
    ∀ (l : List (κ × β)) (k : κ), (l.map (·.1)).Nodup → (aget l k).isSome →
      l.countP (fun p => decide (p.1 = k)) = 1 := by
  intro l k
  induction l with
  | nil => intro _ h; simp [aget] at h
  | cons p t ih =>
      intro hnd hs
      cases p with
      | mk k0 v0 =>
          simp only [List.map_cons, List.nodup_cons] at hnd
          by_cases h : k0 = k
          · subst h
            rw [List.countP_cons_of_pos _ _ (by simp)]
            have hz : t.countP (fun p => decide (p.1 = k0)) = 0 := by
              rw [List.countP_eq_zero]
              intro p hp
              simp only [decide_eq_true_eq]
              intro hpk
              exact hnd.1 (hpk ▸ List.mem_map_of_mem (·.1) hp)
            omega
          · rw [List.countP_cons_of_neg _ _ (by simp [h])]
            apply ih hnd.2
            simpa [aget, List.find?, h] using hs

theorem insertSorted_length (x : ℚ) :
    ∀ l : List ℚ, (insertSorted x l).length = l.length + 1 := by
  intro l
  induction l with
  | nil => rfl
  | cons y t ih =>
      by_cases h : x ≤ y
      · simp [insertSorted, if_pos h]
      · simp [insertSorted, if_neg h, ih]

theorem sortKeys_length : ∀ l : List ℚ, (sortKeys l).length = l.length := by
  intro l
  induction l with
  | nil => rfl
  | cons x t ih =>
      simp only [sortKeys, List.foldr_cons] at ih ⊢
      rw [insertSorted_length, ih, List.length_cons]

theorem groupbyNanmean_rows_le (t : SqlTable) (c : String) (g : GroupedTable)
    (h : groupbyNanmean t c = some g) : g.rows.length ≤ t.rows.length := by
  unfold groupbyNanmean at h
  split at h
  · exact Option.noConfusion h
  · rename_i ki hki
    have hg := Option.some.inj h
    subst hg
    simp only [List.length_map, sortKeys_length]
    exact le_trans (List.Sublist.length_le (List.dedup_sublist _))
      (List.length_filterMap_le _ _)

theorem loadRuns_keep (readT : List (String × SqlTable)) :
    ∀ (rows : List RunRow) (acc tables : List (String × LEntry)) (k : String),
      loadRuns readT rows acc = .ok tables →
      k ∉ rows.map (·.result_table_name) →
      aget tables k = aget acc k := by
  intro rows
  induction rows with
  | nil =>
      intro acc tables k h _
      simp only [loadRuns, Except.ok.injEq] at h
      rw [h]
  | cons row rest ih =>
      intro acc tables k h hk
      simp only [List.map_cons, List.mem_cons, not_or] at hk
      simp only [loadRuns, okOr, bind, Except.bind] at h
      cases hraw : aget readT row.result_table_name with
      | none => rw [hraw] at h; simp at h
      | some raw =>
      rw [hraw] at h
      simp only [] at h
      cases hg : groupbyNanmean raw (firstParam row.parameters) with
      | none => rw [hg] at h; simp at h
      | some g =>
      rw [hg] at h
      simp only [] at h
      rw [ih _ tables k h hk.2, aget_aset_ne acc _ k _ hk.1]

theorem loadRuns_spec (readT : List (String × SqlTable)) :
    ∀ (rows : List RunRow) (acc tables : List (String × LEntry)),
      loadRuns readT rows acc = .ok tables →
      (rows.map (·.result_table_name)).Nodup →
      (acc.map (·.1)).Nodup →
      ((tables.map (·.1)).Nodup
       ∧ ∀ row ∈ rows, ∃ raw g,
           aget readT row.result_table_name = some raw
           ∧ groupbyNanmean raw (firstParam row.parameters) = some g
           ∧ aget tables row.result_table_name = some (.grp g)) := by
  intro rows
  induction rows with
  | nil =>
      intro acc tables h _ hacc
      simp only [loadRuns, Except.ok.injEq] at h
      subst h
      exact ⟨hacc, by simp⟩
  | cons row rest ih =>
      intro acc tables h hnd hacc
      simp only [List.map_cons, List.nodup_cons] at hnd
      simp only [loadRuns, okOr, bind, Except.bind] at h
      cases hraw : aget readT row.result_table_name with
      | none => rw [hraw] at h; simp at h
      | some raw =>
      rw [hraw] at h
      simp only [] at h
      cases hg : groupbyNanmean raw (firstParam row.parameters) with
      | none => rw [hg] at h; simp at h
      | some g =>
      rw [hg] at h
      simp only [] at h
      have hrec := ih (aset acc row.result_table_name (.grp g)) tables h hnd.2
        (aset_keys_nodup acc _ _ hacc)
      refine ⟨hrec.1, ?_⟩
      intro row' hrow'
      rcases List.mem_cons.mp hrow' with hhead | htail
      · subst hhead
        refine ⟨raw, g, hraw, hg, ?_⟩
        rw [loadRuns_keep readT rest _ tables _ h hnd.1, aget_aset_self]
      · exact hrec.2 row' htail

/-- C3: for every successfully loaded `.db` whose runs carry pairwise
distinct result-table names, every row of `runs` yields exactly one entry
in the loaded dict, keyed by its `result_table_name`; that entry is the raw
result table grouped by the first comma-separated parameter and aggregated
per group by mean-ignoring-NaN; and its row count is at most the raw
table's. -/
theorem initDataFromDB_spec
    (db : RawDB) (tables : List (String × LEntry))
    (hok : initDataFromDB db = .ok tables)
    (hnodup : (db.runsRows.map (·.result_table_name)).Nodup) :
    ∀ row ∈ db.runsRows, ∃ raw g,
      aget db.readTable row.result_table_name = some raw
      ∧ groupbyNanmean raw (firstParam row.parameters) = some g
      ∧ aget tables row.result_table_name = some (.grp g)
      ∧ tables.countP (fun p => decide (p.1 = row.result_table_name)) = 1
      ∧ g.rows.length ≤ raw.rows.length := by
  have h := loadRuns_spec db.readTable db.runsRows
    [("experiments", .sql db.experiments), ("runs", .runsL db.runsRows)]
    tables hok hnodup (by simp)
  intro row hrow
  obtain ⟨raw, g, h1, h2, h3⟩ := h.2 row hrow
  exact ⟨raw, g, h1, h2, h3,
    countP_keys_eq_one tables _ h.1 (by rw [h3]; rfl),
    groupbyNanmean_rows_le raw _ g h2⟩

/-- Witness for C3 on the concrete database `dbFixture`: the single run's
table is loaded exactly once, equals the grouped fixture, and has 2 ≤ 3
rows. -/
theorem initDataFromDB_spec_witness :
    aget dbTablesFixture "results-1-1" = some (.grp grpFixture)
    ∧ dbTablesFixture.countP (fun p => decide (p.1 = "results-1-1")) = 1
    ∧ grpFixture.rows.length ≤ rawFixture.rows.length := by
  have hfm : ([some (10:ℚ), some 20] : List Cell).filterMap id = [10, 20] := by
    decide
  have hnm : nanmean [some 10, some 20] = some 15 := by
    norm_num [nanmean, hfm]
  have hgrp : groupbyNanmean rawFixture "gate" = some grpFixture := by
    simp only [groupbyNanmean, rawFixture]
    rw [show (["gate", "vxx"] : List String).findIdx? (fun c => decide (c = "gate"))
        = some 0 from by decide]
    simp only [Option.some.injEq]
    rw [show sortKeys ((([[some (1:ℚ), some 10], [some 1, some 20], [some 2, none]] : List (List Cell)).filterMap (fun row => row.getD 0 none)).dedup) = [1, 2] from by decide]
    simp only [grpFixture, GroupedTable.mk.injEq]
    refine ⟨trivial, by decide, ?_⟩
    rw [show ((List.range (["gate", "vxx"] : List String).length).filter
        (fun j => decide (j ≠ 0))) = [1] from by decide]
    simp only [List.map_cons, List.map_nil]
    rw [show (([[some (1:ℚ), some 10], [some 1, some 20], [some 2, none]] : List (List Cell)).filter (fun row => decide (row.getD 0 none = some 1))) = [[some 1, some 10], [some 1, some 20]] from by decide]
    rw [show (([[some (1:ℚ), some 10], [some 1, some 20], [some 2, none]] : List (List Cell)).filter (fun row => decide (row.getD 0 none = some 2))) = [[some 2, none]] from by decide]
    simp only [List.map_cons, List.map_nil]
    rw [show ([some (1:ℚ), some 10].getD 1 none) = some 10 from by decide,
      show ([some (1:ℚ), some 20].getD 1 none) = some 20 from by decide,
      show ([some (2:ℚ), none].getD 1 none) = none from by decide]
    rw [hnm]
    decide
  have hok : initDataFromDB dbFixture = .ok dbTablesFixture := by
    simp only [initDataFromDB, loadRuns, dbFixture, okOr, bind, Except.bind]
    rw [show aget [("results-1-1", rawFixture)] "results-1-1" = some rawFixture
        from by simp [aget, List.find?]]
    simp only []
    rw [show firstParam "gate,vxx" = "gate" from rfl, hgrp]
    simp only [loadRuns]
    simp [aset, dbTablesFixture, dbFixture]
  have h := initDataFromDB_spec dbFixture dbTablesFixture hok
    (by simp [dbFixture])
    { result_table_name := "results-1-1", parameters := "gate,vxx" }
    (by simp [dbFixture])
  obtain ⟨raw, g, h1, h2, h3, h4, h5⟩ := h
  have hraweq : raw = rawFixture := by
    have : aget dbFixture.readTable "results-1-1" = some rawFixture := by
      simp [dbFixture, aget, List.find?]
    rw [this] at h1
    exact (Option.some.inj h1).symm
  subst hraweq
  have hgeq : g = grpFixture := by
    rw [show firstParam "gate,vxx" = "gate" from rfl, hgrp] at h2
    exact (Option.some.inj h2).symm
  subst hgeq
  exact ⟨h3, h4, h5⟩

/-! ## C8: `get_2d_sweep_params` error behaviour -/

/-- C8 (amended): `get_2d_sweep_params` fails with
`AssertionError('Invalid sweep type(s)')` whenever either sweep type is
unrecognized; with `AssertionError('Invalid sweep direction(s)')` whenever
both sweep types are recognized but either direction is not; when all four
enumerations are valid and the outer sweep type has a name-construction
branch, it fails with `IndexError` whenever no `experiments` row matches
the constructed init experiment name; and when additionally the inner sweep
type has a name-construction branch and no `experiments` row matches the
constructed inner sweep name, the call fails. -/
theorem get_2d_sweep_params_errors
    (r : T2DRecord) (oi ot ii it od idn : String) :
    ((ot ∉ sweep_types ∨ it ∉ sweep_types) →
      get_2d_sweep_params r oi ot ii it od idn
        = .error (.assertionError "Invalid sweep type(s)"))
    ∧ (ot ∈ sweep_types → it ∈ sweep_types →
       (od ∉ sweep_dirns ∨ idn ∉ sweep_dirns) →
      get_2d_sweep_params r oi ot ii it od idn
        = .error (.assertionError "Invalid sweep direction(s)"))
    ∧ (∀ initName sweepName u,
        ot ∈ sweep_types → it ∈ sweep_types → od ∈ sweep_dirns → idn ∈ sweep_dirns →
        outerNameInfo oi ot od = some (initName, sweepName, u) →
        r.experiments.filter (fun e => decide (e.name = initName)) = [] →
        get_2d_sweep_params r oi ot ii it od idn = .error .indexError)
    ∧ (∀ initName sweepName u,
        ot ∈ sweep_types → it ∈ sweep_types → od ∈ sweep_dirns → idn ∈ sweep_dirns →
        outerNameInfo oi ot od = some (initName, sweepName, u) →
        it ∈ ["Keithley voltage", "PPMS DynaCool field", "Keithley current"] →
        r.experiments.filter
          (fun e => decide (e.name = innerName ii it idn sweepName)) = [] →
        isOkE (get_2d_sweep_params r oi ot ii it od idn) = false) := by
  refine ⟨?_, ?_, ?_, ?_⟩
  · intro h
    rw [get_2d_sweep_params, if_neg (by tauto)]
  · intro h1 h2 h
    rw [get_2d_sweep_params, if_pos ⟨h1, h2⟩, if_neg (by tauto)]
  · intro initName sweepName u h1 h2 h3 h4 hname hempty
    rw [get_2d_sweep_params, if_pos ⟨h1, h2⟩, if_pos ⟨h3, h4⟩]
    simp only [okOr, bind, Except.bind, hname, hempty, List.map_nil,
      List.head?_nil]
  · intro initName sweepName u h1 h2 h3 h4 hname hit hempty
    rw [get_2d_sweep_params, if_pos ⟨h1, h2⟩, if_pos ⟨h3, h4⟩]
    simp only [okOr, bind, Except.bind, hname]
    cases hh : ((r.experiments.filter
        (fun e => decide (e.name = initName))).map (·.sample_name)).head? with
    | none => simp [isOkE]
    | some s0 =>
    simp only []
    cases hp : parseSweepEnd u s0 with
    | error e => simp [isOkE]
    | ok v =>
    simp only []
    cases hm : mapExcept (parseSweepEnd u)
        ((r.experiments.filter (fun e => decide (e.name = sweepName))).map
          (·.sample_name)) with
    | error e => simp [isOkE]
    | ok l =>
    simp only [hempty, List.map_nil, List.head?_nil]
    simp [isOkE]

/-- C8 counterexample: with valid types and directions, when no
`experiments` row matches the constructed *outer sweep* experiment name
(`"Keithley K1 voltage sweep"` here) the call does not fail — it succeeds,
returning the outer parameter array holding only the init value — so the
claim's "fails with MissingExperiment whenever no rows of the experiments
table match the constructed experiment name" is false. -/
theorem get_2d_sweep_params_missing_outer_succeeds :
    sweepFixture.experiments.filter
      (fun e => decide (e.name = "Keithley K1 voltage sweep")) = []
    ∧ get_2d_sweep_params sweepFixture "K1" "Keithley voltage" "K2"
        "Keithley current" "" "" = .ok ([0, 1], [1], [7]) := by
  constructor
  · decide
  · rw [get_2d_sweep_params, if_pos (by decide), if_pos (by decide)]
    rw [show outerNameInfo "K1" "Keithley voltage" ""
        = some ("Keithley K1 voltage init", "Keithley K1 voltage sweep", 'V')
        from by decide]
    simp only [okOr, bind, Except.bind]
    rw [show ((sweepFixture.experiments.filter
        (fun e => decide (e.name = "Keithley K1 voltage init"))).map
          (·.sample_name)).head? = some "sweep from 0.0 V to 1.0 V" from by decide]
    simp only []
    rw [show parseSweepEnd 'V' "sweep from 0.0 V to 1.0 V" = .ok 1 from by
      rw [parseSweepEnd]
      rw [show pyIdxNeg2 (splitChar 'V' ("sweep from 0.0 V to 1.0 V").toList)
          = some (" to 1.0 ".toList) from by decide]
      simp only [okOr, bind, Except.bind]
      rw [show pySplitIdx1 ("to ".toList) (" to 1.0 ".toList)
          = some ("1.0 ".toList) from by decide]
      simp only []
      rw [show parsePyFloat (String.mk ("1.0 ".toList)) = some 1 from by
        simp [parsePyFloat, trimSpaces, digitsVal, List.dropWhile,
          List.takeWhile]]]
    simp only []
    rw [show ((sweepFixture.experiments.filter
        (fun e => decide (e.name = "Keithley K1 voltage sweep"))).map
          (·.sample_name)) = [] from by decide]
    rw [show mapExcept (parseSweepEnd 'V') ([] : List String) = .ok [] from rfl]
    simp only []
    rw [show innerName "K2" "Keithley current" "" "Keithley K1 voltage sweep"
        = "Keithley K2 current sweep" from by decide]
    rw [show ((sweepFixture.experiments.filter
        (fun e => decide (e.name = "Keithley K2 current sweep"))).map
          (·.exp_id)) = [7] from by decide]
    simp only [List.head?_cons]
    rw [show aget sweepFixture.tables ("results-" ++ toString (7 : Int) ++ "-1")
        = some [0, 1] from by decide]
    rfl

/-- Witness for C8 on concrete calls: an unrecognized sweep type, an
unrecognized direction, and a missing init experiment each fail as the
amended claim states. -/
theorem get_2d_sweep_params_errors_witness :
    get_2d_sweep_params sweepFixture "K1" "bogus" "K2" "Keithley current" "" ""
      = .error (.assertionError "Invalid sweep type(s)")
    ∧ get_2d_sweep_params sweepFixture "K1" "Keithley voltage" "K2"
        "Keithley current" "left" ""
      = .error (.assertionError "Invalid sweep direction(s)")
    ∧ get_2d_sweep_params sweepFixture "K9" "Keithley voltage" "K2"
        "Keithley current" "" "" = .error .indexError := by
  refine ⟨?_, ?_, ?_⟩
  · exact (get_2d_sweep_params_errors sweepFixture "K1" "bogus" "K2"
      "Keithley current" "" "").1 (Or.inl (by decide))
  · exact (get_2d_sweep_params_errors sweepFixture "K1" "Keithley voltage" "K2"
      "Keithley current" "left" "").2.1 (by decide) (by decide) (Or.inl (by decide))
  · exact (get_2d_sweep_params_errors sweepFixture "K9" "Keithley voltage" "K2"
      "Keithley current" "" "").2.2.1 "Keithley K9 voltage init"
      "Keithley K9 voltage sweep" 'V' (by decide) (by decide) (by decide)
      (by decide) (by decide) (by decide)

/-! ## C9: processors only add columns -/

/-- C9: each signal-processing operation of the transport and optics
processors, applied with its preconditions satisfied (target table and
input columns present, result column names fresh), only adds the new named
columns: the metadata dict is unchanged, every other table is unchanged,
the target table keeps its index, and every previously present column is
still present with unchanged values.  The conjuncts cover every operation
of both processors that writes to a data frame: the transport processor's
`append_resistance_signal`, `append_MCA_coefficient` and
`append_symm_antisymm_rho`, and the optics processor's
`add_average_signal`, `add_eV_from_wavelength`, `apply_lpf`,
`apply_sum_cosine_window`, `compute_gradient` and `compute_dR` (the last
five write a single fresh column to the frame and never touch the
metadata dict; the frame-level conjuncts state this over the frame, the
record-level ones also carry `metadata` unchanged).  The remaining methods
mutate nothing: `apply_lpf_avg` calls the nonexistent `self.fft_smooth`
(AttributeError before any write), `apply_sum_cosine_window_avg` only
delegates to `apply_sum_cosine_window`, and `get_RTcond_DilFridge` /
`get_2d_sweep_params` return values without assigning any column. -/
theorem processors_only_add_columns :
    (∀ (r : TransRecord) (exp R V I : String) (gain sens : Option ℚ)
       (f : PFrame) (r' : TransRecord),
       aget r.data exp = some f → aget f.cols R = none →
       append_resistance_signal r exp R V I gain sens = .ok r' →
       r'.metadata = r.metadata
       ∧ (∀ t, t ≠ exp → aget r'.data t = aget r.data t)
       ∧ ∃ f', aget r'.data exp = some f' ∧ f'.index = f.index
           ∧ (∀ c col0, aget f.cols c = some col0 → aget f'.cols c = some col0))
    ∧ (∀ (r : TransRecord) (exp M R2f Rf : String) (Bs : BSig) (I : String)
       (gain sens : Option ℚ) (f : PFrame) (r' : TransRecord),
       aget r.data exp = some f → aget f.cols M = none →
       append_MCA_coefficient r exp M R2f Rf Bs I gain sens = .ok r' →
       r'.metadata = r.metadata
       ∧ (∀ t, t ≠ exp → aget r'.data t = aget r.data t)
       ∧ ∃ f', aget r'.data exp = some f' ∧ f'.index = f.index
           ∧ (∀ c col0, aget f.cols c = some col0 → aget f'.cols c = some col0))
    ∧ (∀ (r : TransRecord) (exp Rs : String) (f : PFrame) (r' : TransRecord),
       aget r.data exp = some f →
       aget f.cols (Rs ++ "_symm") = none → aget f.cols (Rs ++ "_antisymm") = none →
       append_symm_antisymm_rho r exp Rs = .ok r' →
       r'.metadata = r.metadata
       ∧ (∀ t, t ≠ exp → aget r'.data t = aget r.data t)
       ∧ ∃ f', aget r'.data exp = some f' ∧ f'.index = f.index
           ∧ (∀ c col0, aget f.cols c = some col0 → aget f'.cols c = some col0))
    ∧ (∀ (r : OptRecord) (num_frames : Option ℚ),
       oGetCol r.data "Average Intensity" = none →
       (add_average_signal r num_frames).metadata = r.metadata
       ∧ (add_average_signal r num_frames).data.nrows = r.data.nrows
       ∧ (∀ c col0, oGetCol r.data c = some col0 →
           oGetCol (add_average_signal r num_frames).data c = some col0))
    ∧ (∀ (r r' : OptRecord),
       oGetCol r.data "Energy" = none →
       add_eV_from_wavelength r = .ok r' →
       r'.metadata = r.metadata
       ∧ r'.data.nrows = r.data.nrows
       ∧ (∀ c col0, oGetCol r.data c = some col0 → oGetCol r'.data c = some col0))
    ∧ (∀ (d : OFrame ℝ) (key_name : String) (n_trunc : ℕ) (d' : OFrame ℝ),
       oGetCol d (key_name ++ " (FFT Smoothed)") = none →
       apply_lpf d key_name n_trunc = .ok d' →
       d'.nrows = d.nrows
       ∧ (∀ c col0, oGetCol d c = some col0 → oGetCol d' c = some col0))
    ∧ (∀ (d : OFrame ℝ) (key_name window_name : String) (N : ℕ)
       (alpha0 alpha1 alpha2 alpha3 alpha4 : ℝ) (d' : OFrame ℝ),
       oGetCol d (key_name ++ " (" ++ window_name ++ ")") = none →
       apply_sum_cosine_window d key_name window_name N
         alpha0 alpha1 alpha2 alpha3 alpha4 = .ok d' →
       d'.nrows = d.nrows
       ∧ (∀ c col0, oGetCol d c = some col0 → oGetCol d' c = some col0))
    ∧ (∀ (r : OptRecord) (key_name : String) (r' : OptRecord),
       oGetCol r.data ("Grad " ++ key_name) = none →
       compute_gradient r key_name = .ok r' →
       r'.metadata = r.metadata
       ∧ r'.data.nrows = r.data.nrows
       ∧ (∀ c col0, oGetCol r.data c = some col0 → oGetCol r'.data c = some col0))
    ∧ (∀ (r : OptRecord) (key_name : String) (background : OptRecord)
       (subtract_mean : Bool) (r' : OptRecord),
       oGetCol r.data ("dR/R " ++ key_name) = none →
       compute_dR r key_name background subtract_mean = .ok r' →
       r'.metadata = r.metadata
       ∧ r'.data.nrows = r.data.nrows
       ∧ (∀ c col0, oGetCol r.data c = some col0 → oGetCol r'.data c = some col0)) := by
  refine ⟨?_, ?_, ?_, ?_, ?_, ?_, ?_, ?_, ?_⟩
  · intro r exp R V I gain sens f r' hf hfresh hok
    simp only [append_resistance_signal, hf, okOr, bind, Except.bind, pure,
      Except.pure] at hok
    have hfin : ∃ rsig2, r' = { r with data := aset r.data exp { f with cols := aset f.cols R rsig2 } } := by
      repeat' split at hok
      all_goals
        first
        | exact ⟨_, (Except.ok.inj hok).symm⟩
        | exact Except.noConfusion hok
    obtain ⟨rsig2, hr'⟩ := hfin
    subst hr'
    refine ⟨rfl, fun t ht => aget_aset_ne r.data exp t _ ht, _, aget_aset_self r.data exp _, rfl, ?_⟩
    intro c col0 hc
    have hcne : c ≠ R := by
      rintro rfl
      rw [hfresh] at hc
      cases hc
    rw [aget_aset_ne f.cols R c _ hcne]
    exact hc
  · intro r exp M R2f Rf Bs I gain sens f r' hf hfresh hok
    simp only [append_MCA_coefficient, hf, okOr, bind, Except.bind, pure,
      Except.pure] at hok
    have hfin : ∃ mca3, r' = { r with data := aset r.data exp { f with cols := aset f.cols M mca3 } } := by
      repeat' split at hok
      all_goals
        first
        | exact ⟨_, (Except.ok.inj hok).symm⟩
        | exact Except.noConfusion hok
    obtain ⟨mca3, hr'⟩ := hfin
    subst hr'
    refine ⟨rfl, fun t ht => aget_aset_ne r.data exp t _ ht, _, aget_aset_self r.data exp _, rfl, ?_⟩
    intro c col0 hc
    have hcne : c ≠ M := by
      rintro rfl
      rw [hfresh] at hc
      cases hc
    rw [aget_aset_ne f.cols M c _ hcne]
    exact hc
  · intro r exp Rs f r' hf hfs hfa hok
    simp only [append_symm_antisymm_rho, hf, okOr, bind, Except.bind, pure,
      Except.pure] at hok
    have hfin : ∃ sc ac, r' = { r with data := aset r.data exp { f with cols := aset (aset f.cols (Rs ++ "_symm") sc) (Rs ++ "_antisymm") ac } } := by
      repeat' split at hok
      all_goals
        first
        | exact ⟨_, _, (Except.ok.inj hok).symm⟩
        | exact Except.noConfusion hok
    obtain ⟨sc, ac, hr'⟩ := hfin
    subst hr'
    refine ⟨rfl, fun t ht => aget_aset_ne r.data exp t _ ht, _, aget_aset_self r.data exp _, rfl, ?_⟩
    intro c col0 hc
    have hcs : c ≠ Rs ++ "_symm" := by
      rintro rfl
      rw [hfs] at hc
      cases hc
    have hca : c ≠ Rs ++ "_antisymm" := by
      rintro rfl
      rw [hfa] at hc
      cases hc
    rw [aget_aset_ne _ _ c _ hca, aget_aset_ne _ _ c _ hcs]
    exact hc
  · intro r num_frames hfresh
    refine ⟨rfl, rfl, ?_⟩
    intro c col0 hc
    have hcne : c ≠ "Average Intensity" := by
      rintro rfl
      rw [show oGetCol r.data "Average Intensity" = none from hfresh] at hc
      cases hc
    simp only [add_average_signal, oGetCol, oSetCol] at hc ⊢
    rw [aget_aset_ne _ _ c _ hcne]
    exact hc
  · intro r r' hfresh hok
    simp only [add_eV_from_wavelength, okOr, bind, Except.bind, pure,
      Except.pure] at hok
    have hfin : ∃ v, r' = { r with data := oSetCol r.data "Energy" v } := by
      repeat' split at hok
      all_goals
        first
        | exact ⟨_, (Except.ok.inj hok).symm⟩
        | exact Except.noConfusion hok
    obtain ⟨v, hr'⟩ := hfin
    subst hr'
    refine ⟨rfl, rfl, ?_⟩
    intro c col0 hc
    have hcne : c ≠ "Energy" := by
      rintro rfl
      rw [hfresh] at hc
      cases hc
    simp only [oGetCol, oSetCol] at hc ⊢
    rw [aget_aset_ne _ _ c _ hcne]
    exact hc
  · intro d key_name n_trunc d' hfresh hok
    simp only [apply_lpf, okOr, bind, Except.bind, pure, Except.pure] at hok
    have hfin : ∃ v, d' = oSetCol d (key_name ++ " (FFT Smoothed)") v := by
      repeat' split at hok
      all_goals
        first
        | exact ⟨_, (Except.ok.inj hok).symm⟩
        | exact Except.noConfusion hok
    obtain ⟨v, hd'⟩ := hfin
    subst hd'
    refine ⟨rfl, ?_⟩
    intro c col0 hc
    have hcne : c ≠ key_name ++ " (FFT Smoothed)" := by
      rintro rfl
      rw [hfresh] at hc
      cases hc
    simp only [oGetCol, oSetCol] at hc ⊢
    rw [aget_aset_ne _ _ c _ hcne]
    exact hc
  · intro d key_name window_name N alpha0 alpha1 alpha2 alpha3 alpha4 d' hfresh hok
    simp only [apply_sum_cosine_window, okOr, bind, Except.bind, pure,
      Except.pure] at hok
    have hfin : ∃ v, d' = oSetCol d (key_name ++ " (" ++ window_name ++ ")") v := by
      repeat' split at hok
      all_goals
        first
        | exact ⟨_, (Except.ok.inj hok).symm⟩
        | exact Except.noConfusion hok
    obtain ⟨v, hd'⟩ := hfin
    subst hd'
    refine ⟨rfl, ?_⟩
    intro c col0 hc
    have hcne : c ≠ key_name ++ " (" ++ window_name ++ ")" := by
      rintro rfl
      rw [hfresh] at hc
      cases hc
    simp only [oGetCol, oSetCol] at hc ⊢
    rw [aget_aset_ne _ _ c _ hcne]
    exact hc
  · intro r key_name r' hfresh hok
    simp only [compute_gradient, npGradient, okOr, bind, Except.bind, pure,
      Except.pure] at hok
    have hfin : ∃ v, r' = { r with data := oSetCol r.data ("Grad " ++ key_name) v } := by
      repeat' split at hok
      all_goals
        first
        | exact ⟨_, (Except.ok.inj hok).symm⟩
        | exact Except.noConfusion hok
    obtain ⟨v, hr'⟩ := hfin
    subst hr'
    refine ⟨rfl, rfl, ?_⟩
    intro c col0 hc
    have hcne : c ≠ "Grad " ++ key_name := by
      rintro rfl
      rw [hfresh] at hc
      cases hc
    simp only [oGetCol, oSetCol] at hc ⊢
    rw [aget_aset_ne _ _ c _ hcne]
    exact hc
  · intro r key_name background subtract_mean r' hfresh hok
    simp only [compute_dR, okOr, bind, Except.bind, pure, Except.pure] at hok
    have hfin : ∃ v, r' = { r with data := oSetCol r.data ("dR/R " ++ key_name) v } := by
      repeat' split at hok
      all_goals
        first
        | exact ⟨_, (Except.ok.inj hok).symm⟩
        | exact Except.noConfusion hok
    obtain ⟨v, hr'⟩ := hfin
    subst hr'
    refine ⟨rfl, rfl, ?_⟩
    intro c col0 hc
    have hcne : c ≠ "dR/R " ++ key_name := by
      rintro rfl
      rw [hfresh] at hc
      cases hc
    simp only [oGetCol, oSetCol] at hc ⊢
    rw [aget_aset_ne _ _ c _ hcne]
    exact hc

/-- Witness for C9: on the concrete optics record `avgFixture`,
`add_average_signal` leaves the metadata, the row count, and the existing
`Intensity_1` column untouched. -/
theorem processors_only_add_columns_witness :
    (add_average_signal avgFixture none).metadata = avgFixture.metadata
    ∧ oGetCol (add_average_signal avgFixture none).data "Intensity_1"
      = some [some 1] := by
  have h := processors_only_add_columns.2.2.2.1 avgFixture none
    (by simp [avgFixture, oGetCol, aget, List.find?])
  exact ⟨h.1, h.2.2 "Intensity_1" [some 1]
    (by simp [avgFixture, oGetCol, aget, List.find?])⟩

/-! ## C10: `apply_lpf` -/

theorem exp_sum_orthogonality (n j l : ℕ) (hj : j < n) (hl : l < n) :
    ∑ k ∈ Finset.range n,
      Complex.exp ((2 * Real.pi * Complex.I) * k * ((j : ℂ) - l) / n)
      = if j = l then (n : ℂ) else 0 := by
  by_cases hjl : j = l
  · subst hjl
    simp
  · rw [if_neg hjl]
    have hn : (n : ℂ) ≠ 0 := Nat.cast_ne_zero.mpr (by omega)
    set w : ℂ := (2 * Real.pi * Complex.I) * ((j : ℂ) - l) / n with hw
    have hterm : ∀ k : ℕ, Complex.exp ((2 * Real.pi * Complex.I) * k * ((j : ℂ) - l) / n)
        = Complex.exp w ^ k := by
      intro k
      rw [← Complex.exp_nat_mul]
      congr 1
      rw [hw]
      ring
    simp only [hterm]
    have hz1 : Complex.exp w ≠ 1 := by
      intro h
      obtain ⟨m, hm⟩ := Complex.exp_eq_one_iff.mp h
      rw [hw, div_eq_iff hn] at hm
      have hI : (2 * (Real.pi : ℂ) * Complex.I) ≠ 0 := by
        simp [Complex.I_ne_zero, Real.pi_ne_zero, Complex.ofReal_ne_zero]
      have h2 : ((j : ℂ) - l) = m * n := by
        rw [show (m : ℂ) * (2 * Real.pi * Complex.I) * n
            = (2 * Real.pi * Complex.I) * (m * n) from by ring] at hm
        exact mul_left_cancel₀ hI hm
      have hmn : (j : ℤ) - l = m * n := by exact_mod_cast h2
      have hjZ : (j : ℤ) < n := by exact_mod_cast hj
      have hlZ : (l : ℤ) < n := by exact_mod_cast hl
      have hj0 : (0 : ℤ) ≤ j := Int.ofNat_nonneg j
      have hl0 : (0 : ℤ) ≤ l := Int.ofNat_nonneg l
      have hne : (j : ℤ) ≠ l := by
        intro h0
        exact hjl (by exact_mod_cast h0)
      rcases lt_trichotomy m 0 with hm0 | hm0 | hm0
      · have hm1 : m ≤ -1 := by omega
        have hnn : (0 : ℤ) ≤ n := Int.ofNat_nonneg n
        have : m * n ≤ -1 * n := mul_le_mul_of_nonneg_right hm1 hnn
        linarith
      · subst hm0
        simp at hmn
        omega
      · have hm1 : 1 ≤ m := by omega
        have hnn : (0 : ℤ) ≤ n := Int.ofNat_nonneg n
        have : 1 * n ≤ m * n := mul_le_mul_of_nonneg_right hm1 hnn
        linarith
    rw [geom_sum_eq hz1]
    have hzn : Complex.exp w ^ n = 1 := by
      rw [← Complex.exp_nat_mul]
      have : (n : ℂ) * w = ((j : ℤ) - l) * (2 * Real.pi * Complex.I) := by
        rw [hw]
        field_simp
        ring
      rw [this]
      exact_mod_cast Complex.exp_int_mul_two_pi_mul_I ((j : ℤ) - l)
    rw [hzn]
    simp

theorem dft_inversion (x : List ℂ) (j : ℕ) (hj : j < x.length) :
    ∑ k ∈ Finset.range x.length,
      dftC x k * Complex.exp ((2 * Real.pi * Complex.I) * j * k / x.length)
      = (x.length : ℂ) * x.getD j 0 := by
  set n := x.length with hn
  unfold dftC
  have hswap : ∑ k ∈ Finset.range n,
      (∑ l ∈ Finset.range n,
        x.getD l 0 * Complex.exp (-(2 * Real.pi * Complex.I) * l * k / n))
        * Complex.exp ((2 * Real.pi * Complex.I) * j * k / n)
      = ∑ l ∈ Finset.range n, x.getD l 0 *
          ∑ k ∈ Finset.range n,
            Complex.exp ((2 * Real.pi * Complex.I) * k * ((j : ℂ) - l) / n) := by
    simp only [Finset.sum_mul]
    rw [Finset.sum_comm]
    apply Finset.sum_congr rfl
    intro l _
    rw [Finset.mul_sum]
    apply Finset.sum_congr rfl
    intro k _
    have harg : Complex.exp (-(2 * Real.pi * Complex.I) * l * k / n
          + (2 * Real.pi * Complex.I) * j * k / n)
        = Complex.exp ((2 * Real.pi * Complex.I) * k * ((j : ℂ) - l) / n) := by
      congr 1
      ring
    rw [mul_assoc, ← Complex.exp_add, harg]
  rw [hswap]
  have horth : ∀ l ∈ Finset.range n,
      x.getD l 0 * ∑ k ∈ Finset.range n,
        Complex.exp ((2 * Real.pi * Complex.I) * k * ((j : ℂ) - l) / n)
      = if j = l then x.getD l 0 * n else 0 := by
    intro l hl
    rw [exp_sum_orthogonality n j l hj (Finset.mem_range.mp hl)]
    by_cases hjl : j = l <;> simp [hjl]
  rw [Finset.sum_congr rfl horth]
  rw [Finset.sum_ite_eq (Finset.range n) j (fun l => x.getD l 0 * n)]
  simp [Finset.mem_range.mpr hj, mul_comm]

theorem dft_conj_real (x : List ℝ) (k : ℕ) (hk : k ≤ x.length) :
    (starRingEnd ℂ) (dftC (x.map Complex.ofReal) (x.length - k))
      = dftC (x.map Complex.ofReal) k := by
  unfold dftC
  simp only [List.length_map]
  rw [map_sum]
  apply Finset.sum_congr rfl
  intro j hj
  have hjlt : j < x.length := Finset.mem_range.mp hj
  rw [map_mul]
  have hxj : (starRingEnd ℂ) ((x.map Complex.ofReal).getD j 0)
      = (x.map Complex.ofReal).getD j 0 := by
    rw [List.getD_eq_getElem _ _ (by simpa using hjlt)]
    simp [Complex.conj_ofReal]
  rw [hxj]
  congr 1
  rw [← Complex.exp_conj]
  have hconj : (starRingEnd ℂ) (-(2 * Real.pi * Complex.I) * j * ((x.length - k : ℕ) : ℂ)
        / (x.length : ℂ))
      = (2 * Real.pi * Complex.I) * j * ((x.length - k : ℕ) : ℂ) / (x.length : ℂ) := by
    simp only [map_div₀, map_mul, map_neg, Complex.conj_I, map_natCast, map_ofNat]
    rw [show (starRingEnd ℂ) (Real.pi : ℂ) = (Real.pi : ℂ) from Complex.conj_ofReal _]
    ring
  rw [hconj]
  have hnne : (x.length : ℂ) ≠ 0 := Nat.cast_ne_zero.mpr (by omega)
  have hA : (2 * Real.pi * Complex.I) * j * ((x.length - k : ℕ) : ℂ) / (x.length : ℂ)
      = (j : ℂ) * (2 * Real.pi * Complex.I)
        + -(2 * Real.pi * Complex.I) * j * k / (x.length : ℂ) := by
    rw [Nat.cast_sub hk]
    field_simp
    ring
  rw [hA, Complex.exp_add]
  have h1 : Complex.exp ((j : ℂ) * (2 * Real.pi * Complex.I)) = 1 := by
    have := Complex.exp_int_mul_two_pi_mul_I (j : ℤ)
    simpa using this
  rw [h1, one_mul]

theorem rfft_getD (x : List ℝ) (k : ℕ) (hk : k < x.length / 2 + 1) :
    (rfft x).getD k 0 = dftC (x.map Complex.ofReal) k := by
  unfold rfft
  rw [List.getD_eq_getElem _ _ (by simpa using hk)]
  simp

theorem hermExtend_rfft (x : List ℝ) (hev : Even x.length) (k : ℕ)
    (hk : k < x.length) :
    hermExtend (rfft x) k = dftC (x.map Complex.ofReal) k := by
  have hm : (rfft x).length = x.length / 2 + 1 := by simp [rfft]
  unfold hermExtend
  rw [hm]
  by_cases hkm : k < x.length / 2 + 1
  · rw [if_pos hkm]
    exact rfft_getD x k hkm
  · rw [if_neg hkm]
    obtain ⟨t, ht⟩ := hev
    have hidx : 2 * ((x.length / 2 + 1) - 1) - k = x.length - k := by omega
    rw [hidx]
    have hnk : x.length - k < x.length / 2 + 1 := by omega
    rw [rfft_getD x (x.length - k) hnk]
    exact dft_conj_real x k (by omega)

theorem irfft_getElem (y : List ℂ) (j : ℕ) (h : j < 2 * (y.length - 1)) :
    (irfft y).getD j 0
      = ((1 / ((2 * (y.length - 1) : ℕ) : ℂ))
          * ∑ k ∈ Finset.range (2 * (y.length - 1)),
            hermExtend y k
              * Complex.exp ((2 * Real.pi * Complex.I) * j * k
                  / ((2 * (y.length - 1) : ℕ) : ℂ))).re := by
  unfold irfft
  rw [List.getD_eq_getElem _ _ (by simpa using h)]
  simp

theorem irfft_rfft (x : List ℝ) (hev : Even x.length) : irfft (rfft x) = x := by
  have hm : (rfft x).length = x.length / 2 + 1 := by simp [rfft]
  rcases Nat.eq_zero_or_pos x.length with h0 | hpos
  · have hx : x = [] := List.length_eq_zero.mp h0
    subst hx
    simp [irfft, rfft, dftC]
  · have h2n : 2 * ((rfft x).length - 1) = x.length := by
      rw [hm]
      obtain ⟨t, ht⟩ := hev
      omega
    have hlen : (irfft (rfft x)).length = x.length := by
      simp only [irfft, List.length_map, List.length_range, h2n]
    apply List.ext_getElem
    · rw [hlen]
    · intro j h1 h2
      have hj : j < x.length := h2
      rw [show (irfft (rfft x))[j] = (irfft (rfft x)).getD j 0 from
        (List.getD_eq_getElem _ _ h1).symm]
      rw [irfft_getElem (rfft x) j (by omega)]
      rw [h2n]
      have hsum : ∑ k ∈ Finset.range x.length,
          hermExtend (rfft x) k
            * Complex.exp ((2 * Real.pi * Complex.I) * j * k / ((x.length : ℕ) : ℂ))
          = (x.length : ℂ) * (x.map Complex.ofReal).getD j 0 := by
        rw [Finset.sum_congr rfl (fun k hk => by
          rw [hermExtend_rfft x hev k (Finset.mem_range.mp hk)])]
        have := dft_inversion (x.map Complex.ofReal) j (by simpa using hj)
        simpa using this
      rw [hsum]
      have hnne : ((x.length : ℕ) : ℂ) ≠ 0 := Nat.cast_ne_zero.mpr (by omega)
      rw [show (1 / ((x.length : ℕ) : ℂ))
            * ((x.length : ℂ) * (x.map Complex.ofReal).getD j 0)
          = (x.map Complex.ofReal).getD j 0 from by field_simp]
      rw [List.getD_eq_getElem _ _ (by simpa using hj)]
      simp

theorem rfft_length (x : List ℝ) : (rfft x).length = x.length / 2 + 1 := by
  simp [rfft]

theorem zeroTail_length (y : List ℂ) (t : ℕ) : (zeroTail y t).length = y.length := by
  simp [zeroTail]

theorem irfft_length (y : List ℂ) : (irfft y).length = 2 * (y.length - 1) := by
  simp only [irfft, List.length_map, List.length_range]

theorem zeroTail_eq_self (y : List ℂ) (t : ℕ) (h : y.length ≤ t) :
    zeroTail y t = y := by
  apply List.ext_getElem
  · simp [zeroTail]
  · intro i h1 h2
    simp only [zeroTail, List.getElem_map, List.getElem_range]
    rw [if_neg (by omega)]
    exact List.getD_eq_getElem y 0 h2

/-- C10: on a NaN-free numeric column of even length `n`, `apply_lpf` with
`n_trunc` at least `n/2 + 1` (no bin zeroed) writes a
`"<column> (FFT Smoothed)"` column equal to the original column (the
forward-then-inverse real FFT round trip); on a column of odd length `n`
the inverse real transform has length `n - 1`, one fewer than the frame's
rows, so the assignment raises `ValueError` and the operation fails. -/
theorem apply_lpf_spec (d : OFrame ℝ) (key : String) (vals : List ℝ) (t : ℕ)
    (hcol : oGetCol d key = some (vals.map some))
    (hlen : vals.length = d.nrows) :
    (Even d.nrows → d.nrows / 2 + 1 ≤ t →
      apply_lpf d key t
        = .ok (oSetCol d (key ++ " (FFT Smoothed)") (vals.map some)))
    ∧ (¬ Even d.nrows → apply_lpf d key t = .error .valueError) := by
  have hvals : (vals.map some).map (fun c => c.getD 0) = vals := by
    rw [List.map_map]
    exact List.map_id'' (fun v => rfl) vals
  constructor
  · intro hev ht
    simp only [apply_lpf, hcol, okOr, bind, Except.bind, hvals]
    have hz : zeroTail (rfft vals) t = rfft vals := by
      apply zeroTail_eq_self
      rw [rfft_length, hlen]
      omega
    rw [hz, irfft_rfft vals (by rw [hlen]; exact hev)]
    rw [if_pos (by rw [hlen])]
  · intro hodd
    simp only [apply_lpf, hcol, okOr, bind, Except.bind, hvals]
    have hl : (irfft (zeroTail (rfft vals) t)).length = 2 * (vals.length / 2) := by
      rw [irfft_length, zeroTail_length, rfft_length]
      omega
    rw [if_neg ?hne]
    case hne =>
      rw [hl, ← hlen]
      have : vals.length % 2 = 1 := by
        rw [hlen]
        exact Nat.not_even_iff.mp hodd
      omega

/-- Witness for C10: on the length-2 column `[1, 2]` with `n_trunc = 2` the
round trip succeeds and writes the original values; on the length-1 column
the operation fails with `ValueError`. -/
theorem apply_lpf_spec_witness :
    apply_lpf lpfFixture "x" 2
      = .ok (oSetCol lpfFixture ("x" ++ " (FFT Smoothed)") ([(1:ℝ), 2].map some))
    ∧ apply_lpf lpfOddFixture "x" 5 = .error .valueError := by
  constructor
  · exact (apply_lpf_spec lpfFixture "x" [1, 2] 2
      (by simp [lpfFixture, oGetCol, aget, List.find?]) rfl).1
      (by decide) (by decide)
  · exact (apply_lpf_spec lpfOddFixture "x" [1] 5
      (by simp [lpfOddFixture, oGetCol, aget, List.find?]) rfl).2 (by decide)


end OTA
